import Mathlib

/-!
# The versioned object store of osm-wayback (`db.hpp`)

A shallow embedding of `make_lookup` and of the class `ObjectStore`: the key
codec, the shared write batch with its automatic writes, the three column
families of the engine, the `store_*` functions of both encoding variants,
`get_tags` and `flush`.

Conventions of the embedding.

* `int64_t` ids and `int` versions are integers (`Int`); every statement that
  quantifies over them covers the machine ranges.
* The `unsigned long` counters only ever count calls, one step at a time from 0; they
  are natural numbers (a wrap-around would take 2^64 calls).
* The engine (RocksDB) is a value: three column families, each an association
  list from key to bytes, and a flag telling whether it was opened read-only.
  `Flush` and `CompactRange` leave the contents as they are; the calls are
  recorded in a trace, together with the batch writes and the stats reports.
* The entity types of libosmium and the functions of `pbf_json_encoding.hpp`
  are not part of `db.hpp`; entities are records and the codec functions are
  parameters (`Codec`).
-/

namespace OsmWayback

/-! ## Key codec -/

/-- The result of `std::to_string` on a signed integer: the decimal digits, after a
minus sign for a negative value. -/
def to_string (i : Int) : String :=
  match i with
  | Int.ofNat m => Nat.repr m
  | Int.negSucc m => "-" ++ Nat.repr (m + 1)

/-- The function `make_lookup(osm_id, version)`, `db.hpp` lines 24-26. -/
def make_lookup (osm_id : Int) (version : Int) : String :=
  to_string osm_id ++ "!" ++ to_string version

/-- The constant `const bool STORE_GEOMETRIES = true;`, `db.hpp` line 28. -/
def STORE_GEOMETRIES : Bool := true

/-! ## Entities and documents -/

/-- Modelled from the spec: the location of a point as `store_json_node` reads it.
`lon` and `lat` are the results of `node.location().lon()` and
`node.location().lat()`; `none` stands for a call that throws
`osmium::invalid_location`. Finite doubles are rationals. -/
structure Location where
  lon : Option Rat
  lat : Option Rat

/-- Both coordinate reads succeed. -/
def Location.valid (l : Location) : Bool :=
  l.lon.isSome && l.lat.isSome

/-- Modelled from the spec: the entity shape of section 3 for the Point kind
(`osmium::Node`): id, version, tags, deletion flag and location. -/
structure Node where
  id : Int
  version : Int
  tags : List (String × String)
  deleted : Bool
  location : Location

/-- Modelled from the spec: the entity shape of section 3 for the Way kind
(`osmium::Way`); `nodes` are the node references in source order. -/
structure Way where
  id : Int
  version : Int
  tags : List (String × String)
  deleted : Bool
  nodes : List Int

/-- Modelled from the spec: the entity shape of section 3 for the Relation kind
(`osmium::Relation`); the members are passed through to the codec. -/
structure Relation where
  id : Int
  version : Int
  tags : List (String × String)
  deleted : Bool
  members : List Int

/-- A JSON value as rapidjson holds it. -/
inductive Json where
  | null
  | bool (b : Bool)
  | int (i : Int)
  | double (d : Rat)
  | str (s : String)
  | arr (elems : List Json)
  | obj (members : List (String × Json))

/-- A `rapidjson::Document` whose root is an object: its members in order. -/
abbrev Document := List (String × Json)

/-- The call `json.AddMember(name, value, a)`: the member is appended after the existing
ones, no check for an existing member of that name. -/
def Document.AddMember (json : Document) (name : String) (value : Json) : Document :=
  json ++ [(name, value)]

/-- The functions `db.hpp` calls and does not define: the compact encoders and the
property extractors of `pbf_json_encoding.hpp` (`extract_osm_properties` once per
entity type), and the rapidjson writer that turns a document into bytes. -/
structure Codec where
  encode_node : Node → String
  encode_way : Way → String
  extract_primary_properties : Node → Document
  extract_osm_properties_node : Node → Document
  extract_osm_properties_way : Way → Document
  extract_osm_properties_relation : Relation → Document
  serialize : Document → String

/-! ## The engine -/

/-- The three column family handles `m_cf_nodes`, `m_cf_ways`, `m_cf_relations`. -/
inductive CF where
  | nodes
  | ways
  | relations
  deriving DecidableEq

/-- The contents of one column family: key and bytes, at most one entry per key once
built by `KV.put`. -/
abbrev KV := List (String × String)

/-- Point write: the entry of `key` is replaced. -/
def KV.put (key value : String) (m : KV) : KV :=
  (key, value) :: m.filter (fun p => p.1 != key)

/-- Point read; `none` is the engine's NotFound. -/
def KV.get (key : String) (m : KV) : Option String :=
  m.lookup key

/-- One `Put` of a `rocksdb::WriteBatch`. -/
structure BatchOp where
  cf : CF
  key : String
  value : String
  deriving DecidableEq

/-- The engine: the read-only flag of `OpenForReadOnly` and the three column families. -/
structure DB where
  read_only : Bool
  nodes : KV
  ways : KV
  relations : KV
  deriving DecidableEq

/-- The contents of a column family. -/
def DB.family (db : DB) (cf : CF) : KV :=
  match cf with
  | CF.nodes => db.nodes
  | CF.ways => db.ways
  | CF.relations => db.relations

/-- Replace the contents of a column family. -/
def DB.setFamily (db : DB) (cf : CF) (m : KV) : DB :=
  match cf with
  | CF.nodes => { db with nodes := m }
  | CF.ways => { db with ways := m }
  | CF.relations => { db with relations := m }

/-- One put applied to the engine. -/
def DB.Put (db : DB) (op : BatchOp) : DB :=
  db.setFamily op.cf ((db.family op.cf).put op.key op.value)

/-- The puts of a batch applied in order. -/
def DB.apply (db : DB) (batch : List BatchOp) : DB :=
  batch.foldl DB.Put db

/-- The call `m_db->Get(ReadOptions(), cf, key, value)`; `none` is NotFound. -/
def DB.Get (db : DB) (cf : CF) (key : String) : Option String :=
  (db.family cf).get key

/-- The status of an engine call, as far as `db.hpp` can meet it. -/
inductive Status where
  | OK
  | NotFound
  | NotSupported
  deriving DecidableEq

/-- The call `m_db->Write(m_write_options, &batch)`: the whole batch is applied
atomically; an engine opened with `OpenForReadOnly` refuses with NotSupported and keeps
its contents. -/
def DB.Write (db : DB) (batch : List BatchOp) : Status × DB :=
  if db.read_only then (Status.NotSupported, db) else (Status.OK, db.apply batch)

/-- The calls the store makes on the engine besides `Put` and `Get`. -/
inductive Event where
  | write (batch : List BatchOp)
  | flush_family (cf : CF)
  | compact_family (cf : CF)
  | report_count_stats
  deriving DecidableEq

/-! ## The store -/

/-- The fields of `class ObjectStore`, and the trace of its engine calls. -/
structure ObjectStore where
  m_db : DB
  m_buffer_batch : List BatchOp
  empty_objects_count : Nat
  stored_tags_count : Nat
  stored_nodes_count : Nat
  stored_ways_count : Nat
  stored_relations_count : Nat
  trace : List Event
  deriving DecidableEq

/-- The function `stored_objects_count()`, lines 79-81. -/
def ObjectStore.stored_objects_count (s : ObjectStore) : Nat :=
  s.stored_nodes_count + s.stored_ways_count + s.stored_relations_count

/-- The store a successful `ObjectStore(index_dir, create)` leaves, lines 83-136.
With `create` the previous index is destroyed and three empty column families are
created; without it the store found at `index_dir` (`existing`) is opened read-only.
All counters start at 0 and the batch is empty. -/
def ObjectStore.construct (existing : DB) (create : Bool) : ObjectStore :=
  let db : DB :=
    if create then { read_only := false, nodes := [], ways := [], relations := [] }
    else { existing with read_only := true }
  { m_db := db, m_buffer_batch := [], empty_objects_count := 0, stored_tags_count := 0,
    stored_nodes_count := 0, stored_ways_count := 0, stored_relations_count := 0,
    trace := [] }

/-- The function `flush_family(type, cf)`, lines 39-46: `m_db->Flush` moves the memtable
of the column family to disk; the contents stay as they are. -/
def flush_family (cf : CF) (s : ObjectStore) : ObjectStore :=
  { s with trace := s.trace ++ [Event.flush_family cf] }

/-- The function `compact_family(type, cf)`, lines 48-55. -/
def compact_family (cf : CF) (s : ObjectStore) : ObjectStore :=
  { s with trace := s.trace ++ [Event.compact_family cf] }

/-- The function `report_count_stats()`, lines 57-69: reads the key count estimates and
prints them. -/
def report_count_stats (s : ObjectStore) : ObjectStore :=
  { s with trace := s.trace ++ [Event.report_count_stats] }

/-- The function `get_tags(osm_id, osm_type, version, value)`, lines 138-151. -/
def get_tags (osm_id : Int) (osm_type : Int) (version : Int) (s : ObjectStore) :
    Option String :=
  let lookup := make_lookup osm_id version
  if osm_type = 1 then s.m_db.Get CF.nodes lookup
  else if osm_type = 2 then s.m_db.Get CF.ways lookup
  else s.m_db.Get CF.relations lookup

/-- The two statements `m_db->Write(m_write_options, &m_buffer_batch);
m_buffer_batch.Clear();` (lines 306-307, 323-324, 331-332): the status of the write is
dropped and the batch is cleared whatever it was. -/
def write_batch (s : ObjectStore) : ObjectStore :=
  { s with
    m_db := (s.m_db.Write s.m_buffer_batch).2
    m_buffer_batch := []
    trace := s.trace ++ [Event.write s.m_buffer_batch] }

/-- The function `store_pbf_object(value, lookup, cf)`, lines 300-310. -/
def store_pbf_object (value lookup : String) (cf : CF) (s : ObjectStore) :
    Bool × ObjectStore :=
  let s1 := { s with m_buffer_batch := s.m_buffer_batch ++ [⟨cf, lookup, value⟩] }
  let s2 := if s1.m_buffer_batch.length > 2000 then write_batch s1 else s1
  (true, s2)

/-- The function `store_json_object(doc, lookup, cf)`, lines 313-328. -/
def store_json_object (codec : Codec) (doc : Document) (lookup : String) (cf : CF)
    (s : ObjectStore) : Bool × ObjectStore :=
  let buffer := codec.serialize doc
  let s1 := { s with m_buffer_batch := s.m_buffer_batch ++ [⟨cf, lookup, buffer⟩] }
  let s2 := if s1.m_buffer_batch.length > 1000 then write_batch s1 else s1
  (true, s2)

/-- The function `store_pbf_node(node)`, lines 156-168. -/
def store_pbf_node (codec : Codec) (node : Node) (s : ObjectStore) : ObjectStore :=
  let lookup := make_lookup node.id node.version
  let r := store_pbf_object (codec.encode_node node) lookup CF.nodes s
  let s1 := if r.1 then { r.2 with stored_nodes_count := r.2.stored_nodes_count + 1 } else r.2
  if s1.stored_nodes_count != 0 && s1.stored_nodes_count % 5000000 == 0 then
    report_count_stats (flush_family CF.nodes s1)
  else s1

/-- The function `store_pbf_way(way)`, lines 170-182. -/
def store_pbf_way (codec : Codec) (way : Way) (s : ObjectStore) : ObjectStore :=
  let lookup := make_lookup way.id way.version
  let r := store_pbf_object (codec.encode_way way) lookup CF.ways s
  let s1 := if r.1 then { r.2 with stored_ways_count := r.2.stored_ways_count + 1 } else r.2
  if s1.stored_ways_count != 0 && s1.stored_ways_count % 2000000 == 0 then
    report_count_stats (flush_family CF.ways s1)
  else s1

/-- Lines 193-215 of `store_json_node`: the document the node starts from, `none` when
the function returns early (no tags and no geometries to store). `geometries` is the
value of `STORE_GEOMETRIES`. -/
def json_node_base (geometries : Bool) (codec : Codec) (node : Node) : Option Document :=
  if node.tags.isEmpty then
    if !geometries then none
    else if node.version == 1 then some (codec.extract_primary_properties node)
    else some (codec.extract_osm_properties_node node)
  else some (codec.extract_osm_properties_node node)

/-- Lines 219-232 of `store_json_node`: the `try` block reads `lon()` and then `lat()`;
a throw leaves `json` without the member `"g"`. -/
def json_node_geometry (geometries : Bool) (node : Node) (json : Document) : Document :=
  if !node.deleted && geometries then
    match node.location.lon with
    | none => json
    | some lon =>
      match node.location.lat with
      | none => json
      | some lat => json.AddMember "g" (Json.arr [Json.double lon, Json.double lat])
  else json

/-- The function `store_json_node(node)`, lines 192-241, for a given value of
`STORE_GEOMETRIES`. -/
def store_json_node_with (geometries : Bool) (codec : Codec) (node : Node)
    (s : ObjectStore) : ObjectStore :=
  match json_node_base geometries codec node with
  | none => { s with empty_objects_count := s.empty_objects_count + 1 }
  | some base =>
    let lookup := make_lookup node.id node.version
    let json := json_node_geometry geometries node base
    let r := store_json_object codec json lookup CF.nodes s
    let s1 := if r.1 then { r.2 with stored_nodes_count := r.2.stored_nodes_count + 1 } else r.2
    if s1.stored_nodes_count != 0 && s1.stored_nodes_count % 4000000 == 0 then
      report_count_stats (flush_family CF.nodes s1)
    else s1

/-- Lines 245-267 of `store_json_way`: the properties of the way and, unless it is
deleted, the member `"r"` with its node references. -/
def json_way_document (geometries : Bool) (codec : Codec) (way : Way) : Document :=
  let json := codec.extract_osm_properties_way way
  if !way.deleted && geometries then
    json.AddMember "r" (Json.arr (way.nodes.foldl (fun nodes nr => nodes ++ [Json.int nr]) []))
  else json

/-- The function `store_json_way(way)`, lines 243-277, for a given value of
`STORE_GEOMETRIES`. -/
def store_json_way_with (geometries : Bool) (codec : Codec) (way : Way)
    (s : ObjectStore) : ObjectStore :=
  let json := json_way_document geometries codec way
  let lookup := make_lookup way.id way.version
  let r := store_json_object codec json lookup CF.ways s
  let s1 := if r.1 then { r.2 with stored_ways_count := r.2.stored_ways_count + 1 } else r.2
  if s1.stored_ways_count != 0 && s1.stored_ways_count % 2000000 == 0 then
    report_count_stats (flush_family CF.ways s1)
  else s1

/-- The function `store_json_relation(relation)`, lines 279-293. -/
def store_json_relation (codec : Codec) (relation : Relation) (s : ObjectStore) :
    ObjectStore :=
  let json := codec.extract_osm_properties_relation relation
  let lookup := make_lookup relation.id relation.version
  let r := store_json_object codec json lookup CF.relations s
  let s1 :=
    if r.1 then { r.2 with stored_relations_count := r.2.stored_relations_count + 1 } else r.2
  if s1.stored_relations_count != 0 && s1.stored_relations_count % 1000000 == 0 then
    report_count_stats (flush_family CF.relations s1)
  else s1

/-- The function `store_json_node(node)` of the program as built. -/
def store_json_node (codec : Codec) (node : Node) (s : ObjectStore) : ObjectStore :=
  store_json_node_with STORE_GEOMETRIES codec node s

/-- The function `store_json_way(way)` of the program as built. -/
def store_json_way (codec : Codec) (way : Way) (s : ObjectStore) : ObjectStore :=
  store_json_way_with STORE_GEOMETRIES codec way s

/-- The function `flush()`, lines 330-343. -/
def flush (s : ObjectStore) : ObjectStore :=
  let s1 := write_batch s
  let s2 := flush_family CF.nodes s1
  let s3 := flush_family CF.ways s2
  let s4 := flush_family CF.relations s3
  let s5 := compact_family CF.nodes s4
  let s6 := compact_family CF.ways s5
  let s7 := compact_family CF.relations s6
  report_count_stats s7

/-! ## Sequences of calls -/

/-- One call of a `store_*` member function. -/
inductive Call where
  | store_pbf_node (node : Node)
  | store_pbf_way (way : Way)
  | store_json_node (node : Node)
  | store_json_way (way : Way)
  | store_json_relation (relation : Relation)

/-- The effect of one call, for a given value of `STORE_GEOMETRIES`. -/
def Call.run_with (geometries : Bool) (codec : Codec) (c : Call) (s : ObjectStore) :
    ObjectStore :=
  match c with
  | Call.store_pbf_node node => OsmWayback.store_pbf_node codec node s
  | Call.store_pbf_way way => OsmWayback.store_pbf_way codec way s
  | Call.store_json_node node => store_json_node_with geometries codec node s
  | Call.store_json_way way => store_json_way_with geometries codec way s
  | Call.store_json_relation relation => OsmWayback.store_json_relation codec relation s

/-- The effect of one call in the program as built. -/
def Call.run (codec : Codec) (c : Call) (s : ObjectStore) : ObjectStore :=
  c.run_with STORE_GEOMETRIES codec s

/-- A sequence of calls, first call first. -/
def run_calls_with (geometries : Bool) (codec : Codec) (calls : List Call)
    (s : ObjectStore) : ObjectStore :=
  calls.foldl (fun st c => c.run_with geometries codec st) s

/-- A sequence of calls in the program as built. -/
def run_calls (codec : Codec) (calls : List Call) (s : ObjectStore) : ObjectStore :=
  run_calls_with STORE_GEOMETRIES codec calls s

/-- The `osm_type` under which `get_tags` finds what the call stores: 1 for a node,
2 for a way, 3 for a relation. -/
def Call.osm_type : Call → Int
  | Call.store_pbf_node _ => 1
  | Call.store_pbf_way _ => 2
  | Call.store_json_node _ => 1
  | Call.store_json_way _ => 2
  | Call.store_json_relation _ => 3

/-- The id of the entity of the call. -/
def Call.id : Call → Int
  | Call.store_pbf_node node => node.id
  | Call.store_pbf_way way => way.id
  | Call.store_json_node node => node.id
  | Call.store_json_way way => way.id
  | Call.store_json_relation relation => relation.id

/-- The version of the entity of the call. -/
def Call.version : Call → Int
  | Call.store_pbf_node node => node.version
  | Call.store_pbf_way way => way.version
  | Call.store_json_node node => node.version
  | Call.store_json_way way => way.version
  | Call.store_json_relation relation => relation.version

/-- The bytes the codec produces for the entity of the call: what the call hands to
`Put`; `none` for a node that `store_json_node` skips. -/
def Call.bytes_with (geometries : Bool) (codec : Codec) : Call → Option String
  | Call.store_pbf_node node => some (codec.encode_node node)
  | Call.store_pbf_way way => some (codec.encode_way way)
  | Call.store_json_node node =>
    (json_node_base geometries codec node).map
      (fun base => codec.serialize (json_node_geometry geometries node base))
  | Call.store_json_way way => some (codec.serialize (json_way_document geometries codec way))
  | Call.store_json_relation relation =>
    some (codec.serialize (codec.extract_osm_properties_relation relation))

/-- The bytes of the call in the program as built. -/
def Call.bytes (codec : Codec) (c : Call) : Option String :=
  c.bytes_with STORE_GEOMETRIES codec

/-- The call is a node store call, a way store call, a relation store call. -/
def Call.isNode : Call → Bool
  | Call.store_pbf_node _ => true
  | Call.store_json_node _ => true
  | _ => false

/-- The call is a way store call. -/
def Call.isWay : Call → Bool
  | Call.store_pbf_way _ => true
  | Call.store_json_way _ => true
  | _ => false

/-- The call is a relation store call. -/
def Call.isRelation : Call → Bool
  | Call.store_json_relation _ => true
  | _ => false

/-- The call returns early without storing: a node without tags while geometries are
not stored. -/
def Call.skipped_with (geometries : Bool) : Call → Bool
  | Call.store_json_node node => node.tags.isEmpty && !geometries
  | _ => false

/-- The column family `get_tags` reads for an `osm_type`: nodes for 1, ways for 2,
relations for everything else. -/
def family_of_type (osm_type : Int) : CF :=
  if osm_type = 1 then CF.nodes else if osm_type = 2 then CF.ways else CF.relations

/-- One step of `last_bytes_with`: a call that stores under `(osm_type, id, version)`
replaces what was found so far. -/
def last_bytes_step (geometries : Bool) (codec : Codec) (osm_type id version : Int)
    (found : Option String) (c : Call) : Option String :=
  if c.osm_type = osm_type ∧ c.id = id ∧ c.version = version then
    match c.bytes_with geometries codec with
    | some bytes => some bytes
    | none => found
  else found

/-- The bytes of the last call of the sequence that stores under `(osm_type, id,
version)`, `none` when no call does. -/
def last_bytes_with (geometries : Bool) (codec : Codec) (calls : List Call)
    (osm_type id version : Int) : Option String :=
  calls.foldl (last_bytes_step geometries codec osm_type id version) none

/-- The bytes of the last call that stores under `(osm_type, id, version)` in the
program as built. -/
def last_bytes (codec : Codec) (calls : List Call) (osm_type id version : Int) :
    Option String :=
  last_bytes_with STORE_GEOMETRIES codec calls osm_type id version

/-- The column family the call writes to. -/
def Call.cf : Call → CF
  | Call.store_pbf_node _ => CF.nodes
  | Call.store_pbf_way _ => CF.ways
  | Call.store_json_node _ => CF.nodes
  | Call.store_json_way _ => CF.ways
  | Call.store_json_relation _ => CF.relations

/-- The put the call appends to the batch, `none` for a skipped node. -/
def Call.put_with (geometries : Bool) (codec : Codec) (c : Call) : Option BatchOp :=
  (c.bytes_with geometries codec).map (fun bytes => ⟨c.cf, make_lookup c.id c.version, bytes⟩)

/-! ## Observations on a store -/

/-- The puts the write events of a trace handed to the engine, in order. -/
def written : List Event → List BatchOp
  | [] => []
  | Event.write batch :: es => batch ++ written es
  | Event.flush_family _ :: es => written es
  | Event.compact_family _ :: es => written es
  | Event.report_count_stats :: es => written es

/-- Every put the store has issued so far, in order: those of the batches handed to
the engine followed by the pending ones. -/
def ObjectStore.puts (s : ObjectStore) : List BatchOp :=
  written s.trace ++ s.m_buffer_batch

/-- The contents of the engine once the pending batch is applied to it. -/
def ObjectStore.view (s : ObjectStore) : DB :=
  s.m_db.apply s.m_buffer_batch

/-- Consecutive calls of `store_pbf_object`, one per entry of `args`. -/
def store_pbf_objects (args : List BatchOp) (s : ObjectStore) : ObjectStore :=
  args.foldl (fun st a => (store_pbf_object a.value a.key a.cf st).2) s

/-- Consecutive calls of `store_json_object`, one per entry `(doc, lookup, cf)`. -/
def store_json_objects (codec : Codec) (args : List (Document × String × CF))
    (s : ObjectStore) : ObjectStore :=
  args.foldl (fun st a => (store_json_object codec a.1 a.2.1 a.2.2 st).2) s

/-- The put a call of `store_json_object` appends to the batch. -/
def json_put (codec : Codec) (a : Document × String × CF) : BatchOp :=
  ⟨a.2.2, a.2.1, codec.serialize a.1⟩

/-! ## Decimal digits -/

/-- The value of a decimal digit character. -/
def digit_value (c : Char) : Nat := c.toNat - 48

/-- The number a list of decimal digits denotes, most significant digit first. -/
def decimal_value (cs : List Char) : Nat :=
  cs.foldl (fun acc c => 10 * acc + digit_value c) 0

/-! ## Calls interleaved with `flush()` -/

/-- One step of a session on a store: a `store_*` call or `flush()`. -/
inductive Op where
  | call (c : Call)
  | flush

/-- The effect of one step, for a given value of `STORE_GEOMETRIES`. -/
def Op.run_with (geometries : Bool) (codec : Codec) (o : Op) (s : ObjectStore) :
    ObjectStore :=
  match o with
  | Op.call c => c.run_with geometries codec s
  | Op.flush => OsmWayback.flush s

/-- A sequence of steps, first step first, for a given value of `STORE_GEOMETRIES`. -/
def run_ops_with (geometries : Bool) (codec : Codec) (ops : List Op) (s : ObjectStore) :
    ObjectStore :=
  ops.foldl (fun st o => o.run_with geometries codec st) s

/-- A sequence of steps in the program as built. -/
def run_ops (codec : Codec) (ops : List Op) (s : ObjectStore) : ObjectStore :=
  run_ops_with STORE_GEOMETRIES codec ops s

/-! ## The thresholds as the spec tabulates them -/

/-- The counter of the kind of the call: `stored_nodes_count`, `stored_ways_count` or
`stored_relations_count`. -/
def Call.counter (c : Call) (s : ObjectStore) : Nat :=
  match c with
  | Call.store_pbf_node _ => s.stored_nodes_count
  | Call.store_pbf_way _ => s.stored_ways_count
  | Call.store_json_node _ => s.stored_nodes_count
  | Call.store_json_way _ => s.stored_ways_count
  | Call.store_json_relation _ => s.stored_relations_count

/-- The partition flush threshold of section 4.5 of the spec, by kind and variant:
Point 5,000,000 (compact) and 4,000,000 (document), Way 2,000,000, Relation 1,000,000. -/
def Call.flush_threshold : Call → Nat
  | Call.store_pbf_node _ => 5000000
  | Call.store_pbf_way _ => 2000000
  | Call.store_json_node _ => 4000000
  | Call.store_json_way _ => 2000000
  | Call.store_json_relation _ => 1000000

/-- The write buffer threshold of section 4.3 of the spec: 2000 for the compact variant,
1000 for the document variant. -/
def Call.batch_limit : Call → Nat
  | Call.store_pbf_node _ => 2000
  | Call.store_pbf_way _ => 2000
  | Call.store_json_node _ => 1000
  | Call.store_json_way _ => 1000
  | Call.store_json_relation _ => 1000

/-- The column families the `flush_family` events of a trace name, in order. -/
def flushed : List Event → List CF
  | [] => []
  | Event.flush_family cf :: es => cf :: flushed es
  | Event.write _ :: es => flushed es
  | Event.compact_family _ :: es => flushed es
  | Event.report_count_stats :: es => flushed es

/-! ## Construction with the statuses of the engine -/

/-- The statuses the engine returns to the constructor: `open_ok` for `DB::Open` (with
`create`) or `DB::OpenForReadOnly` (without), which fails when the store or one of the
three column families is missing; the others for the three `CreateColumnFamily` calls. -/
structure EngineAnswers where
  open_ok : Bool
  nodes_ok : Bool
  ways_ok : Bool
  relations_ok : Bool
  deriving DecidableEq

/-- An engine call of the constructor. -/
inductive Setup where
  | DestroyDB
  | Open
  | CreateColumnFamily (cf : CF)
  | OpenForReadOnly
  deriving DecidableEq

/-- How the constructor ends: an `assert(s.ok())` failed and the process aborts; or a
member function was called through `m_db` though `DB::Open` had failed and left it null,
which has no defined behaviour; or the store is constructed. -/
inductive Construction where
  | aborted
  | undefined
  | constructed (s : ObjectStore)
  deriving DecidableEq

/-- The constructor `ObjectStore(index_dir, create)`, lines 99-136, with the statuses of
the engine and the engine calls it makes, in order. The asserts are taken as written
(`NDEBUG` not defined). With `create`, the status of `DB::Open` is overwritten by that of
the first `CreateColumnFamily` without being examined (lines 105-106). -/
def ObjectStore.construct_checked (answers : EngineAnswers) (existing : DB) (create : Bool) :
    List Setup × Construction :=
  if create then
    if !answers.open_ok then
      ([Setup.DestroyDB, Setup.Open, Setup.CreateColumnFamily CF.nodes],
        Construction.undefined)
    else if !answers.nodes_ok then
      ([Setup.DestroyDB, Setup.Open, Setup.CreateColumnFamily CF.nodes],
        Construction.aborted)
    else if !answers.ways_ok then
      ([Setup.DestroyDB, Setup.Open, Setup.CreateColumnFamily CF.nodes,
          Setup.CreateColumnFamily CF.ways],
        Construction.aborted)
    else if !answers.relations_ok then
      ([Setup.DestroyDB, Setup.Open, Setup.CreateColumnFamily CF.nodes,
          Setup.CreateColumnFamily CF.ways, Setup.CreateColumnFamily CF.relations],
        Construction.aborted)
    else
      ([Setup.DestroyDB, Setup.Open, Setup.CreateColumnFamily CF.nodes,
          Setup.CreateColumnFamily CF.ways, Setup.CreateColumnFamily CF.relations],
        Construction.constructed (ObjectStore.construct existing true))
  else
    if !answers.open_ok then ([Setup.OpenForReadOnly], Construction.aborted)
    else
      ([Setup.OpenForReadOnly],
        Construction.constructed (ObjectStore.construct existing false))

/-! ## Order and number of keys -/

/-- The order of the engine on keys: byte by byte, a proper prefix first. -/
def bytewise_lt : List Char → List Char → Bool
  | [], [] => false
  | [], _ :: _ => true
  | _ :: _, [] => false
  | a :: as, b :: bs =>
    decide (a.toNat < b.toNat) || (decide (a.toNat = b.toNat) && bytewise_lt as bs)

/-- The keys present in a column family. -/
def KV.keys (m : KV) : List String :=
  m.map (fun p => p.1)

/-- The `(id, version)` pair of the entity of a call. -/
def Call.pair (c : Call) : Int × Int :=
  (c.id, c.version)

/-! ## A store opened for reading -/

/-- A store opened with `create = false` on an index that holds one node. -/
def read_only_store : ObjectStore :=
  ObjectStore.construct
    { read_only := false, nodes := [("1!1", "node 1!1")], ways := [], relations := [] } false

/-! ## Sample inputs -/

/-- A codec to evaluate the store on: the compact encoders write the kind and the key,
the extractors give the id (and the version and the tags for the full set), the writer
joins the member names. -/
def sample_codec : Codec where
  encode_node := fun n => "node " ++ make_lookup n.id n.version
  encode_way := fun w => "way " ++ make_lookup w.id w.version
  extract_primary_properties := fun n => [("i", Json.int n.id)]
  extract_osm_properties_node := fun n =>
    [("i", Json.int n.id), ("v", Json.int n.version)] ++ n.tags.map (fun t => (t.1, Json.str t.2))
  extract_osm_properties_way := fun w =>
    [("i", Json.int w.id), ("v", Json.int w.version)] ++ w.tags.map (fun t => (t.1, Json.str t.2))
  extract_osm_properties_relation := fun r =>
    [("i", Json.int r.id), ("v", Json.int r.version)] ++ r.tags.map (fun t => (t.1, Json.str t.2))
  serialize := fun doc => String.intercalate "," (doc.map (fun m => m.1))

/-- A store just created in write mode. -/
def fresh_store : ObjectStore :=
  ObjectStore.construct { read_only := false, nodes := [], ways := [], relations := [] } true

/-- A point without tags, version 1, at (lon 7.5, lat 51.2). -/
def sample_node : Node :=
  { id := 7, version := 1, tags := [], deleted := false,
    location := { lon := some (15 / 2), lat := some (256 / 5) } }

/-- A tagged point, version 2. -/
def tagged_node : Node :=
  { id := 8, version := 2, tags := [("amenity", "cafe")], deleted := false,
    location := { lon := some (15 / 2), lat := some (256 / 5) } }

/-- A point whose location cannot be read. -/
def invalid_node : Node :=
  { id := 9, version := 3, tags := [], deleted := false,
    location := { lon := none, lat := none } }

/-- A way with the references 10, 20, 30. -/
def sample_way : Way :=
  { id := 7, version := 1, tags := [("highway", "path")], deleted := false,
    nodes := [10, 20, 30] }

/-- A relation. -/
def sample_relation : Relation :=
  { id := 7, version := 1, tags := [("type", "route")], deleted := false, members := [7] }

/-! ## The key codec is injective -/

theorem digitChar_spec (d : Nat) (h : d < 10) :
    (Nat.digitChar d).isDigit = true ∧ digit_value (Nat.digitChar d) = d := by
  interval_cases d <;> exact ⟨by decide, by decide⟩

theorem decimal_value_append (ds : List Char) (c : Char) :
    decimal_value (ds ++ [c]) = 10 * decimal_value ds + digit_value c := by
  simp [decimal_value, List.foldl_append]

/-- The digit loop of `Nat.repr` puts in front of the accumulator a non-empty list of
decimal digits whose value is the number. -/
theorem digit_loop_value (fuel n : Nat) (acc : List Char) (hfuel : n < fuel) :
    ∃ ds : List Char, decimal_value ds = n ∧ (∀ c ∈ ds, c.isDigit = true) ∧ ds ≠ [] ∧
      Nat.toDigitsCore 10 fuel n acc = ds ++ acc := by
  induction fuel generalizing n acc with
  | zero => omega
  | succ fuel ih =>
    have hd := digitChar_spec (n % 10) (Nat.mod_lt _ (by decide))
    simp only [Nat.toDigitsCore]
    by_cases h0 : n / 10 = 0
    · refine ⟨[Nat.digitChar (n % 10)], ?_, ?_, by simp, by simp [h0]⟩
      · have hv : decimal_value [Nat.digitChar (n % 10)]
            = digit_value (Nat.digitChar (n % 10)) := by
          simp [decimal_value]
        rw [hv, hd.2]; omega
      · intro c hc
        simp only [List.mem_singleton] at hc
        rw [hc]; exact hd.1
    · have hlt : n / 10 < fuel := by omega
      obtain ⟨ds, h4, h3, _, h1⟩ := ih (n / 10) (Nat.digitChar (n % 10) :: acc) hlt
      refine ⟨ds ++ [Nat.digitChar (n % 10)], ?_, ?_, by simp, by simp [h0, h1]⟩
      · rw [decimal_value_append, h4, hd.2]; omega
      · intro c hc
        rcases List.mem_append.1 hc with hc | hc
        · exact h3 c hc
        · simp only [List.mem_singleton] at hc
          rw [hc]; exact hd.1

theorem repr_spec (n : Nat) :
    (Nat.repr n).data ≠ [] ∧ (∀ c ∈ (Nat.repr n).data, c.isDigit = true) ∧
      decimal_value (Nat.repr n).data = n := by
  obtain ⟨ds, h4, h3, h2, h1⟩ := digit_loop_value (n + 1) n [] (by omega)
  have hrepr : (Nat.repr n).data = ds := by
    simp [Nat.repr, Nat.toDigits, h1, List.asString]
  rw [hrepr]
  exact ⟨h2, h3, h4⟩

theorem to_string_injective (i j : Int) (h : to_string i = to_string j) : i = j := by
  have hdata : (to_string i).data = (to_string j).data := by rw [h]
  cases i with
  | ofNat m =>
    cases j with
    | ofNat k =>
      simp only [to_string] at hdata
      have hv := congrArg decimal_value hdata
      rw [(repr_spec m).2.2, (repr_spec k).2.2] at hv
      rw [hv]
    | negSucc k =>
      exfalso
      simp only [to_string, String.data_append] at hdata
      have hm : '-' ∈ (Nat.repr m).data := by rw [hdata]; simp
      have hdig := (repr_spec m).2.1 _ hm
      revert hdig; decide
  | negSucc m =>
    cases j with
    | ofNat k =>
      exfalso
      simp only [to_string, String.data_append] at hdata
      have hm : '-' ∈ (Nat.repr k).data := by rw [← hdata]; simp
      have hdig := (repr_spec k).2.1 _ hm
      revert hdig; decide
    | negSucc k =>
      simp only [to_string, String.data_append] at hdata
      have hd : (Nat.repr (m + 1)).data = (Nat.repr (k + 1)).data := by
        simpa using hdata
      have hv := congrArg decimal_value hd
      rw [(repr_spec (m + 1)).2.2, (repr_spec (k + 1)).2.2] at hv
      have hmk : m = k := by omega
      rw [hmk]

theorem to_string_no_separator (i : Int) : '!' ∉ (to_string i).data := by
  intro hmem
  cases i with
  | ofNat m =>
    simp only [to_string] at hmem
    have hdig := (repr_spec m).2.1 _ hmem
    revert hdig; decide
  | negSucc m =>
    simp only [to_string, String.data_append] at hmem
    rcases List.mem_append.1 hmem with h | h
    · revert h; decide
    · have hdig := (repr_spec (m + 1)).2.1 _ h
      revert hdig; decide

theorem split_at_separator (sep : Char) : ∀ (a c b d : List Char), sep ∉ a → sep ∉ c →
    a ++ sep :: b = c ++ sep :: d → a = c ∧ b = d := by
  intro a
  induction a with
  | nil =>
    intro c b d _ hc h
    cases c with
    | nil => simpa using h
    | cons x c =>
      simp only [List.nil_append, List.cons_append, List.cons.injEq] at h
      exact absurd (by rw [h.1]; simp) hc
  | cons x a ih =>
    intro c b d ha hc h
    cases c with
    | nil =>
      simp only [List.nil_append, List.cons_append, List.cons.injEq] at h
      exact absurd (by rw [← h.1]; simp) ha
    | cons y c =>
      simp only [List.cons_append, List.cons.injEq] at h
      have ha2 : sep ∉ a := fun hm => ha (List.mem_cons_of_mem _ hm)
      have hc2 : sep ∉ c := fun hm => hc (List.mem_cons_of_mem _ hm)
      obtain ⟨h1, h2⟩ := ih c b d ha2 hc2 h.2
      exact ⟨by rw [h.1, h1], h2⟩

theorem make_lookup_data (id v : Int) :
    (make_lookup id v).data = (to_string id).data ++ '!' :: (to_string v).data := by
  simp [make_lookup, String.data_append]

/-- Keys are equal only for equal ids and equal versions. -/
theorem make_lookup_inj {id1 v1 id2 v2 : Int}
    (h : make_lookup id1 v1 = make_lookup id2 v2) : id1 = id2 ∧ v1 = v2 := by
  have hd : (make_lookup id1 v1).data = (make_lookup id2 v2).data := by rw [h]
  rw [make_lookup_data, make_lookup_data] at hd
  obtain ⟨h1, h2⟩ := split_at_separator '!' _ _ _ _ (to_string_no_separator id1)
    (to_string_no_separator id2) hd
  exact ⟨to_string_injective _ _ (String.ext h1), to_string_injective _ _ (String.ext h2)⟩

/-- C1: for all ids and versions, negative ones included, two keys built by
`make_lookup` are equal only if the ids are equal and the versions are equal; the
separator `!` occurs in the decimal rendering of neither integer. -/
theorem make_lookup_injective (id1 v1 id2 v2 : Int)
    (h : make_lookup id1 v1 = make_lookup id2 v2) :
    (id1 = id2 ∧ v1 = v2) ∧ '!' ∉ (to_string id1).data ∧ '!' ∉ (to_string v1).data :=
  ⟨make_lookup_inj h, to_string_no_separator id1, to_string_no_separator v1⟩

/-- The key of id 12 and version -3 is "12!-3", and it is the key of that pair only. -/
theorem make_lookup_injective_witness :
    make_lookup 12 (-3) = "12!-3" ∧
      (((12 : Int) = 12 ∧ (-3 : Int) = -3) ∧
        '!' ∉ (to_string 12).data ∧ '!' ∉ (to_string (-3)).data) :=
  ⟨by decide, make_lookup_injective 12 (-3) 12 (-3) rfl⟩

/-! ## The engine as a map -/

theorem KV.get_filter_ne (key other : String) (h : key ≠ other) : ∀ m : KV,
    KV.get key (m.filter (fun p => p.1 != other)) = KV.get key m := by
  intro m
  induction m with
  | nil => rfl
  | cons p m ih =>
    obtain ⟨a, b⟩ := p
    simp only [KV.get] at ih ⊢
    by_cases hp : a = other
    · subst hp
      have hk : (key == a) = false := by simpa using h
      simp [List.filter_cons, List.lookup_cons, hk, ih]
    · by_cases hk : key = a
      · simp [List.filter_cons, hp, List.lookup_cons, hk]
      · have hk2 : (key == a) = false := by simpa using hk
        simp [List.filter_cons, hp, List.lookup_cons, hk2, ih]

theorem KV.get_put (key value other : String) (m : KV) :
    KV.get other (KV.put key value m) = if other = key then some value else KV.get other m := by
  by_cases h : other = key
  · subst h
    simp [KV.get, KV.put, List.lookup_cons]
  · have hk : (other == key) = false := by simpa using h
    have := KV.get_filter_ne other key h m
    simp only [KV.get] at this
    simp [KV.get, KV.put, List.lookup_cons, hk, h, this]

theorem DB.Get_Put (db : DB) (op : BatchOp) (cf : CF) (key : String) :
    (db.Put op).Get cf key =
      if op.cf = cf ∧ op.key = key then some op.value else db.Get cf key := by
  obtain ⟨ocf, okey, oval⟩ := op
  cases ocf <;> cases cf <;>
    simp [DB.Put, DB.Get, DB.family, DB.setFamily, KV.get_put, eq_comm]

theorem DB.read_only_Put (db : DB) (op : BatchOp) : (db.Put op).read_only = db.read_only := by
  obtain ⟨ocf, okey, oval⟩ := op
  cases ocf <;> rfl

theorem DB.apply_append (db : DB) (b1 b2 : List BatchOp) :
    db.apply (b1 ++ b2) = (db.apply b1).apply b2 := by
  simp [DB.apply, List.foldl_append]

theorem DB.read_only_apply (batch : List BatchOp) : ∀ db : DB,
    (db.apply batch).read_only = db.read_only := by
  induction batch with
  | nil => intro db; rfl
  | cons op batch ih =>
    intro db
    have h := ih (db.Put op)
    simp only [DB.apply, List.foldl_cons] at h ⊢
    rw [h, DB.read_only_Put]

/-! ## What one call does to the store -/

theorem written_append (a b : List Event) : written (a ++ b) = written a ++ written b := by
  induction a with
  | nil => rfl
  | cons e a ih => cases e <;> simp [written, ih]

/-- Every call appends its put to the history of puts, and nothing else. -/
theorem puts_run_with (geometries : Bool) (codec : Codec) (c : Call) (s : ObjectStore) :
    (c.run_with geometries codec s).puts = s.puts ++ (c.put_with geometries codec).toList := by
  cases c with
  | store_json_node node =>
    simp only [Call.run_with, store_json_node_with, Call.put_with, Call.bytes_with]
    cases hb : json_node_base geometries codec node with
    | none => simp [ObjectStore.puts]
    | some base =>
      simp only [store_json_object, Call.cf, Call.id, Call.version]
      split_ifs <;>
        simp [ObjectStore.puts, write_batch, flush_family, report_count_stats, written_append,
          written]
  | _ =>
    simp only [Call.run_with, store_pbf_node, store_pbf_way, store_json_node_with,
      store_json_way_with, store_json_relation, store_pbf_object, store_json_object,
      Call.put_with, Call.bytes_with, Call.cf, Call.id, Call.version]
    split_ifs <;>
      simp [ObjectStore.puts, write_batch, flush_family, report_count_stats, written_append,
        written]

/-- A call keeps the mode of the engine. -/
theorem read_only_run_with (geometries : Bool) (codec : Codec) (c : Call)
    (s : ObjectStore) :
    (c.run_with geometries codec s).m_db.read_only = s.m_db.read_only := by
  cases c with
  | store_json_node node =>
    simp only [Call.run_with, store_json_node_with]
    cases hb : json_node_base geometries codec node with
    | none => simp
    | some base =>
      simp only [store_json_object]
      split_ifs <;>
        simp [write_batch, flush_family, report_count_stats, DB.Write, DB.read_only_apply]
      all_goals (split_ifs <;> simp_all [DB.read_only_apply])
  | _ =>
    simp only [Call.run_with, store_pbf_node, store_pbf_way, store_json_node_with,
      store_json_way_with, store_json_relation, store_pbf_object, store_json_object]
    split_ifs <;>
      simp [write_batch, flush_family, report_count_stats, DB.Write, DB.read_only_apply]
    all_goals (split_ifs <;> simp_all [DB.read_only_apply])

/-- In write mode the engine with the pending batch applied changes by the put of the
call, whether or not the call ended with a batch write. -/
theorem view_run_with (geometries : Bool) (codec : Codec) (c : Call) (s : ObjectStore)
    (hw : s.m_db.read_only = false) :
    (c.run_with geometries codec s).view =
      match c.put_with geometries codec with
      | some op => s.view.Put op
      | none => s.view := by
  cases c with
  | store_json_node node =>
    simp only [Call.run_with, store_json_node_with, Call.put_with, Call.bytes_with]
    cases hb : json_node_base geometries codec node with
    | none => simp [ObjectStore.view]
    | some base =>
      simp only [store_json_object, Call.cf, Call.id, Call.version]
      split_ifs <;>
        simp [ObjectStore.view, write_batch, flush_family, report_count_stats, DB.Write, hw,
          DB.apply_append, DB.apply]
  | _ =>
    simp only [Call.run_with, store_pbf_node, store_pbf_way, store_json_node_with,
      store_json_way_with, store_json_relation, store_pbf_object, store_json_object,
      Call.put_with, Call.bytes_with, Call.cf, Call.id, Call.version]
    split_ifs <;>
      simp [ObjectStore.view, write_batch, flush_family, report_count_stats, DB.Write, hw,
        DB.apply_append, DB.apply]

/-! ## Reading back what was stored -/

theorem get_tags_eq (osm_id osm_type version : Int) (s : ObjectStore) :
    get_tags osm_id osm_type version s =
      s.m_db.Get (family_of_type osm_type) (make_lookup osm_id version) := by
  simp only [get_tags, family_of_type]
  split_ifs <;> rfl

theorem cf_eq_family_of_type (c : Call) : c.cf = family_of_type c.osm_type := by
  cases c <;> rfl

theorem cf_eq_family_iff (c : Call) (osm_type : Int)
    (hk : osm_type = 1 ∨ osm_type = 2 ∨ osm_type = 3) :
    c.cf = family_of_type osm_type ↔ c.osm_type = osm_type := by
  rcases hk with hk | hk | hk <;> subst hk <;> cases c <;>
    simp [Call.cf, Call.osm_type, family_of_type]

theorem m_db_flush (s : ObjectStore) (hw : s.m_db.read_only = false) :
    (flush s).m_db = s.view := by
  simp [flush, write_batch, flush_family, compact_family, report_count_stats, DB.Write, hw,
    ObjectStore.view]

theorem m_buffer_batch_flush (s : ObjectStore) : (flush s).m_buffer_batch = [] := by
  simp [flush, write_batch, flush_family, compact_family, report_count_stats]

/-- The program as built hands bytes to `Put` on every call. -/
theorem bytes_isSome (codec : Codec) (c : Call) : ∃ bytes, c.bytes codec = some bytes := by
  cases c with
  | store_json_node node =>
    simp only [Call.bytes, Call.bytes_with, json_node_base, STORE_GEOMETRIES]
    split_ifs <;> simp_all
  | _ => simp [Call.bytes, Call.bytes_with]

/-- After a call and `flush()` in write mode, `get_tags` finds the bytes of the call. -/
theorem get_tags_flush_run_with (geometries : Bool) (codec : Codec) (c : Call)
    (s : ObjectStore) (hw : s.m_db.read_only = false) (bytes : String)
    (hb : c.bytes_with geometries codec = some bytes) :
    get_tags c.id c.osm_type c.version (flush (c.run_with geometries codec s))
      = some bytes := by
  have hw2 : (c.run_with geometries codec s).m_db.read_only = false := by
    rw [read_only_run_with, hw]
  rw [get_tags_eq, m_db_flush _ hw2, view_run_with geometries codec c s hw]
  simp [Call.put_with, hb, DB.Get_Put, cf_eq_family_of_type]

/-- C2, as amended: for every write-mode store state and every entity, after the store
call for that entity followed by `flush()`, `get_tags(id, kind, version)`, with kind 1
for a node, 2 for a way and 3 for a relation, returns found with exactly the bytes the
codec produced for that entity. -/
theorem store_flush_get_tags (codec : Codec) (s : ObjectStore)
    (hw : s.m_db.read_only = false) (node : Node) (way : Way) (relation : Relation) :
    get_tags node.id 1 node.version (flush (store_pbf_node codec node s))
        = some (codec.encode_node node) ∧
      get_tags way.id 2 way.version (flush (store_pbf_way codec way s))
        = some (codec.encode_way way) ∧
      (∃ base, json_node_base STORE_GEOMETRIES codec node = some base ∧
        get_tags node.id 1 node.version (flush (store_json_node codec node s))
          = some (codec.serialize (json_node_geometry STORE_GEOMETRIES node base))) ∧
      get_tags way.id 2 way.version (flush (store_json_way codec way s))
        = some (codec.serialize (json_way_document STORE_GEOMETRIES codec way)) ∧
      get_tags relation.id 3 relation.version (flush (store_json_relation codec relation s))
        = some (codec.serialize (codec.extract_osm_properties_relation relation)) := by
  refine ⟨?_, ?_, ?_, ?_, ?_⟩
  · exact get_tags_flush_run_with STORE_GEOMETRIES codec (Call.store_pbf_node node) s hw _ rfl
  · exact get_tags_flush_run_with STORE_GEOMETRIES codec (Call.store_pbf_way way) s hw _ rfl
  · obtain ⟨bytes, hb⟩ := bytes_isSome codec (Call.store_json_node node)
    simp only [Call.bytes, Call.bytes_with, Option.map_eq_some'] at hb
    obtain ⟨base, hbase, hbytes⟩ := hb
    refine ⟨base, hbase, ?_⟩
    have h := get_tags_flush_run_with STORE_GEOMETRIES codec (Call.store_json_node node) s hw
      bytes (by simp [Call.bytes_with, hbase, hbytes])
    rw [hbytes]
    exact h
  · exact get_tags_flush_run_with STORE_GEOMETRIES codec (Call.store_json_way way) s hw _ rfl
  · exact get_tags_flush_run_with STORE_GEOMETRIES codec (Call.store_json_relation relation)
      s hw _ rfl

/-- On a store just created, a point, a way and a relation are each found after their
store call and `flush()`. -/
theorem store_flush_get_tags_witness :
    fresh_store.m_db.read_only = false ∧
      get_tags 7 1 1 (flush (store_pbf_node sample_codec sample_node fresh_store))
        = some "node 7!1" :=
  ⟨rfl, (store_flush_get_tags sample_codec fresh_store rfl sample_node sample_way
    sample_relation).1⟩

/-- C2 fails as stated: right after `store_pbf_node` on a store just created in write
mode the record is pending in the batch, and `get_tags` for its own id, kind and
version answers NotFound instead of the bytes the codec produced. -/
theorem get_tags_right_after_store_not_found :
    fresh_store.m_db.read_only = false ∧
      sample_codec.encode_node sample_node = "node 7!1" ∧
      (store_pbf_node sample_codec sample_node fresh_store).m_buffer_batch
        = [⟨CF.nodes, "7!1", "node 7!1"⟩] ∧
      get_tags sample_node.id 1 sample_node.version
        (store_pbf_node sample_codec sample_node fresh_store) = none := by
  decide

/-! ## A sequence of calls followed by `flush()` -/

theorem run_calls_with_cons (geometries : Bool) (codec : Codec) (c : Call)
    (calls : List Call) (s : ObjectStore) :
    run_calls_with geometries codec (c :: calls) s
      = run_calls_with geometries codec calls (c.run_with geometries codec s) := rfl

theorem read_only_run_calls_with (geometries : Bool) (codec : Codec) (calls : List Call) :
    ∀ s : ObjectStore,
      (run_calls_with geometries codec calls s).m_db.read_only = s.m_db.read_only := by
  induction calls with
  | nil => intro s; rfl
  | cons c calls ih =>
    intro s
    rw [run_calls_with_cons, ih, read_only_run_with]

/-- One call changes what the engine will hold under a key as `last_bytes_step` says. -/
theorem get_view_run_with (geometries : Bool) (codec : Codec) (osm_type id version : Int)
    (hk : osm_type = 1 ∨ osm_type = 2 ∨ osm_type = 3) (c : Call) (s : ObjectStore)
    (hw : s.m_db.read_only = false) :
    (c.run_with geometries codec s).view.Get (family_of_type osm_type)
        (make_lookup id version)
      = last_bytes_step geometries codec osm_type id version
          (s.view.Get (family_of_type osm_type) (make_lookup id version)) c := by
  rw [view_run_with geometries codec c s hw]
  simp only [last_bytes_step, Call.put_with]
  cases hb : c.bytes_with geometries codec with
  | none => simp
  | some bytes =>
    simp only [Option.map_some', DB.Get_Put]
    by_cases hc : c.osm_type = osm_type ∧ c.id = id ∧ c.version = version
    · obtain ⟨h1, h2, h3⟩ := hc
      have hcf := (cf_eq_family_iff c osm_type hk).2 h1
      simp [h1, h2, h3, hcf]
    · have hne : ¬ (c.cf = family_of_type osm_type ∧
          make_lookup c.id c.version = make_lookup id version) := by
        rintro ⟨h1, h2⟩
        exact hc ⟨(cf_eq_family_iff c osm_type hk).1 h1, make_lookup_inj h2⟩
      rw [if_neg hne, if_neg hc]

theorem get_view_run_calls_with (geometries : Bool) (codec : Codec)
    (osm_type id version : Int) (hk : osm_type = 1 ∨ osm_type = 2 ∨ osm_type = 3)
    (calls : List Call) : ∀ s : ObjectStore, s.m_db.read_only = false →
    (run_calls_with geometries codec calls s).view.Get (family_of_type osm_type)
        (make_lookup id version)
      = calls.foldl (last_bytes_step geometries codec osm_type id version)
          (s.view.Get (family_of_type osm_type) (make_lookup id version)) := by
  induction calls with
  | nil => intro s _; rfl
  | cons c calls ih =>
    intro s hw
    have hw2 : (c.run_with geometries codec s).m_db.read_only = false := by
      rw [read_only_run_with, hw]
    rw [run_calls_with_cons, ih _ hw2, get_view_run_with geometries codec osm_type id version
      hk c s hw]
    rfl

/-- After any calls on a store just created in write mode and `flush()`, `get_tags`
answers with the bytes of the last call that stored under the key. -/
theorem get_tags_flush_run_calls_with (geometries : Bool) (codec : Codec) (existing : DB)
    (calls : List Call) (osm_type id version : Int)
    (hk : osm_type = 1 ∨ osm_type = 2 ∨ osm_type = 3) :
    get_tags id osm_type version
        (flush (run_calls_with geometries codec calls (ObjectStore.construct existing true)))
      = last_bytes_with geometries codec calls osm_type id version := by
  have hw : (ObjectStore.construct existing true).m_db.read_only = false := rfl
  have hw2 := read_only_run_calls_with geometries codec calls
    (ObjectStore.construct existing true)
  rw [hw] at hw2
  rw [get_tags_eq, m_db_flush _ hw2, get_view_run_calls_with geometries codec osm_type id
    version hk calls _ hw]
  have hempty : (ObjectStore.construct existing true).view.Get (family_of_type osm_type)
      (make_lookup id version) = none := by
    simp only [family_of_type]
    split_ifs <;> rfl
  rw [hempty]
  rfl

theorem foldl_last_bytes_step_isSome (geometries : Bool) (codec : Codec)
    (osm_type id version : Int) (calls : List Call) : ∀ found : Option String,
    (found.isSome = true ∨ ∃ c ∈ calls, (c.osm_type = osm_type ∧ c.id = id ∧
        c.version = version) ∧ (c.bytes_with geometries codec).isSome = true) →
    (calls.foldl (last_bytes_step geometries codec osm_type id version) found).isSome
      = true := by
  induction calls with
  | nil =>
    intro found h
    rcases h with h | ⟨c, hc, _⟩
    · exact h
    · cases hc
  | cons c calls ih =>
    intro found h
    rw [List.foldl_cons]
    apply ih
    rcases h with h | ⟨d, hd, hmatch, hbytes⟩
    · left
      simp only [last_bytes_step]
      split_ifs
      · cases hb : c.bytes_with geometries codec <;> simp [h]
      · exact h
    · rcases List.mem_cons.1 hd with hdc | hdc
      · subst hdc
        left
        simp only [last_bytes_step, if_pos hmatch]
        cases hb : d.bytes_with geometries codec with
        | none => rw [hb] at hbytes; cases hbytes
        | some bytes => rfl
      · right
        exact ⟨d, hdc, hmatch, hbytes⟩

/-- C3: for every finite sequence of `store_*` calls on a store just created in write
mode followed by `flush()`, the pending batch is empty afterwards, `get_tags` answers
for every kind (1, 2, 3), id and version with the bytes of the last store call made for
them, and every call of the sequence is found. -/
theorem flush_submits_everything (codec : Codec) (existing : DB) (calls : List Call) :
    (flush (run_calls codec calls (ObjectStore.construct existing true))).m_buffer_batch = [] ∧
      (∀ osm_type id version : Int, osm_type = 1 ∨ osm_type = 2 ∨ osm_type = 3 →
        get_tags id osm_type version
            (flush (run_calls codec calls (ObjectStore.construct existing true)))
          = last_bytes codec calls osm_type id version) ∧
      ∀ c ∈ calls, ∃ bytes,
        last_bytes codec calls c.osm_type c.id c.version = some bytes ∧
        get_tags c.id c.osm_type c.version
            (flush (run_calls codec calls (ObjectStore.construct existing true)))
          = some bytes := by
  have hget : ∀ osm_type id version : Int, osm_type = 1 ∨ osm_type = 2 ∨ osm_type = 3 →
      get_tags id osm_type version
          (flush (run_calls codec calls (ObjectStore.construct existing true)))
        = last_bytes codec calls osm_type id version := fun osm_type id version hk =>
    get_tags_flush_run_calls_with STORE_GEOMETRIES codec existing calls osm_type id version hk
  refine ⟨m_buffer_batch_flush _, hget, ?_⟩
  intro c hc
  have hk : c.osm_type = 1 ∨ c.osm_type = 2 ∨ c.osm_type = 3 := by
    cases c <;> simp [Call.osm_type]
  have hsome : (last_bytes codec calls c.osm_type c.id c.version).isSome = true := by
    apply foldl_last_bytes_step_isSome
    right
    obtain ⟨bytes, hb⟩ := bytes_isSome codec c
    refine ⟨c, hc, ⟨rfl, rfl, rfl⟩, ?_⟩
    simp only [Call.bytes] at hb
    rw [hb]; rfl
  obtain ⟨bytes, hbytes⟩ := Option.isSome_iff_exists.1 hsome
  exact ⟨bytes, hbytes, by rw [hget _ _ _ hk, hbytes]⟩

/-- Two stores of the same point, the compact one first: after `flush()` the bytes of
the second call are found. -/
theorem flush_submits_everything_witness :
    get_tags 7 1 1
        (flush (run_calls sample_codec
          [Call.store_pbf_node sample_node, Call.store_json_node sample_node] fresh_store))
      = some "i,g" :=
  ((flush_submits_everything sample_codec
      { read_only := false, nodes := [], ways := [], relations := [] }
      [Call.store_pbf_node sample_node, Call.store_json_node sample_node]).2.1 1 7 1
    (Or.inl rfl)).trans (by decide)

/-! ## The automatic batch write -/

theorem store_pbf_objects_append (l1 l2 : List BatchOp) (s : ObjectStore) :
    store_pbf_objects (l1 ++ l2) s = store_pbf_objects l2 (store_pbf_objects l1 s) := by
  simp [store_pbf_objects, List.foldl_append]

/-- While the batch holds at most 2000 puts, `store_pbf_object` only appends to it. -/
theorem store_pbf_objects_pending (args : List BatchOp) : ∀ s : ObjectStore,
    s.m_buffer_batch.length + args.length ≤ 2000 →
    store_pbf_objects args s = { s with m_buffer_batch := s.m_buffer_batch ++ args } := by
  induction args with
  | nil => intro s _; simp [store_pbf_objects]
  | cons a args ih =>
    intro s h
    simp only [List.length_cons] at h
    have hstep : (store_pbf_object a.value a.key a.cf s).2
        = { s with m_buffer_batch := s.m_buffer_batch ++ [a] } := by
      have hle : ¬ (s.m_buffer_batch.length + 1 > 2000) := by omega
      simp [store_pbf_object, hle]
    have hfold : store_pbf_objects (a :: args) s
        = store_pbf_objects args (store_pbf_object a.value a.key a.cf s).2 := rfl
    rw [hfold, hstep, ih]
    · simp
    · simp only [List.length_append, List.length_singleton]; omega

theorem length_succ_split {α : Type} (n : Nat) (args : List α) (hlen : args.length = n + 1) :
    ∃ (l : List α) (a : α), args = l ++ [a] ∧ l.length = n := by
  have hdrop : (args.drop n).length = 1 := by simp [hlen]
  obtain ⟨a, ha⟩ := List.length_eq_one.1 hdrop
  refine ⟨args.take n, a, ?_, by simp [hlen]⟩
  rw [← ha, List.take_append_drop]

/-- The call number 2001 on an empty batch hands all 2001 puts to the engine. -/
theorem store_pbf_objects_full (args : List BatchOp) (s : ObjectStore)
    (hs : s.m_buffer_batch = []) (hlen : args.length = 2001) :
    store_pbf_objects args s = write_batch { s with m_buffer_batch := args } := by
  obtain ⟨l, a, rfl, hl⟩ := length_succ_split 2000 args hlen
  rw [store_pbf_objects_append, store_pbf_objects_pending _ s (by rw [hs, hl]; simp)]
  have hgt : l.length + 1 > 2000 := by omega
  simp [store_pbf_objects, store_pbf_object, hs, hgt]

theorem store_json_objects_append (codec : Codec) (l1 l2 : List (Document × String × CF))
    (s : ObjectStore) :
    store_json_objects codec (l1 ++ l2) s
      = store_json_objects codec l2 (store_json_objects codec l1 s) := by
  simp [store_json_objects, List.foldl_append]

/-- While the batch holds at most 1000 puts, `store_json_object` only appends to it. -/
theorem store_json_objects_pending (codec : Codec) (args : List (Document × String × CF)) :
    ∀ s : ObjectStore, s.m_buffer_batch.length + args.length ≤ 1000 →
    store_json_objects codec args s
      = { s with m_buffer_batch := s.m_buffer_batch ++ args.map (json_put codec) } := by
  induction args with
  | nil => intro s _; simp [store_json_objects]
  | cons a args ih =>
    intro s h
    simp only [List.length_cons] at h
    have hstep : (store_json_object codec a.1 a.2.1 a.2.2 s).2
        = { s with m_buffer_batch := s.m_buffer_batch ++ [json_put codec a] } := by
      have hle : ¬ (s.m_buffer_batch.length + 1 > 1000) := by omega
      simp [store_json_object, hle, json_put]
    have hfold : store_json_objects codec (a :: args) s
        = store_json_objects codec args (store_json_object codec a.1 a.2.1 a.2.2 s).2 := rfl
    rw [hfold, hstep, ih]
    · simp
    · simp only [List.length_append, List.length_singleton]; omega

/-- The call number 1001 on an empty batch hands all 1001 puts to the engine. -/
theorem store_json_objects_full (codec : Codec) (args : List (Document × String × CF))
    (s : ObjectStore) (hs : s.m_buffer_batch = []) (hlen : args.length = 1001) :
    store_json_objects codec args s
      = write_batch { s with m_buffer_batch := args.map (json_put codec) } := by
  obtain ⟨l, a, rfl, hl⟩ := length_succ_split 1000 args hlen
  rw [store_json_objects_append, store_json_objects_pending codec _ s (by rw [hs, hl]; simp)]
  have hgt : l.length + 1 > 1000 := by omega
  simp [store_json_objects, store_json_object, hs, hgt, json_put]

/-- C4: starting from an empty batch, after n consecutive `store_pbf_object` calls with
n at most 2000 the batch holds the n puts and nothing has been written to the engine;
the call number 2001 hands all 2001 puts to the engine in one write and leaves the batch
empty, and the call number 2002 leaves one put pending. The same holds for
`store_json_object` with 1000, 1001 and 1002. -/
theorem auto_write_threshold (codec : Codec) (s : ObjectStore) (hs : s.m_buffer_batch = []) :
    (∀ args : List BatchOp,
      (args.length ≤ 2000 →
        (store_pbf_objects args s).m_buffer_batch = args ∧
        (store_pbf_objects args s).m_db = s.m_db ∧
        (store_pbf_objects args s).trace = s.trace) ∧
      (args.length = 2001 →
        (store_pbf_objects args s).m_buffer_batch = [] ∧
        (store_pbf_objects args s).m_db = (s.m_db.Write args).2 ∧
        (store_pbf_objects args s).trace = s.trace ++ [Event.write args]) ∧
      (args.length = 2002 →
        (store_pbf_objects args s).m_buffer_batch.length = 1 ∧
        (store_pbf_objects args s).m_buffer_batch = args.drop 2001 ∧
        (store_pbf_objects args s).m_db = (s.m_db.Write (args.take 2001)).2)) ∧
    (∀ args : List (Document × String × CF),
      (args.length ≤ 1000 →
        (store_json_objects codec args s).m_buffer_batch = args.map (json_put codec) ∧
        (store_json_objects codec args s).m_db = s.m_db ∧
        (store_json_objects codec args s).trace = s.trace) ∧
      (args.length = 1001 →
        (store_json_objects codec args s).m_buffer_batch = [] ∧
        (store_json_objects codec args s).m_db
          = (s.m_db.Write (args.map (json_put codec))).2 ∧
        (store_json_objects codec args s).trace
          = s.trace ++ [Event.write (args.map (json_put codec))]) ∧
      (args.length = 1002 →
        (store_json_objects codec args s).m_buffer_batch.length = 1 ∧
        (store_json_objects codec args s).m_buffer_batch
          = (args.drop 1001).map (json_put codec) ∧
        (store_json_objects codec args s).m_db
          = (s.m_db.Write ((args.take 1001).map (json_put codec))).2)) := by
  refine ⟨fun args => ⟨?_, ?_, ?_⟩, fun args => ⟨?_, ?_, ?_⟩⟩
  · intro h
    rw [store_pbf_objects_pending args s (by rw [hs]; simpa using h)]
    simp [hs]
  · intro h
    rw [store_pbf_objects_full args s hs h]
    simp [write_batch]
  · intro h
    obtain ⟨l, b, rfl, hl⟩ := length_succ_split 2001 args h
    rw [store_pbf_objects_append, store_pbf_objects_full l s hs hl,
      store_pbf_objects_pending [b] _ (by simp [write_batch])]
    simp [write_batch, List.drop_left' hl, List.take_left' hl]
  · intro h
    rw [store_json_objects_pending codec args s (by rw [hs]; simpa using h)]
    simp [hs]
  · intro h
    rw [store_json_objects_full codec args s hs h]
    simp [write_batch]
  · intro h
    obtain ⟨l, b, rfl, hl⟩ := length_succ_split 1001 args h
    rw [store_json_objects_append, store_json_objects_full codec l s hs hl,
      store_json_objects_pending codec [b] _ (by simp [write_batch])]
    simp [write_batch, List.drop_left' hl, List.take_left' hl]

/-- On a store just created, 2001 compact puts end with an empty batch and one write of
all of them. -/
theorem auto_write_threshold_witness :
    fresh_store.m_buffer_batch = [] ∧
      (store_pbf_objects (List.replicate 2001 ⟨CF.nodes, "7!1", "node 7!1"⟩)
          fresh_store).m_buffer_batch = [] ∧
      (store_pbf_objects (List.replicate 2001 ⟨CF.nodes, "7!1", "node 7!1"⟩)
          fresh_store).trace
        = [Event.write (List.replicate 2001 ⟨CF.nodes, "7!1", "node 7!1"⟩)] :=
  ⟨rfl,
    (((auto_write_threshold sample_codec fresh_store rfl).1
      (List.replicate 2001 ⟨CF.nodes, "7!1", "node 7!1"⟩)).2.1 (List.length_replicate _ _)).1,
    (((auto_write_threshold sample_codec fresh_store rfl).1
      (List.replicate 2001 ⟨CF.nodes, "7!1", "node 7!1"⟩)).2.1 (List.length_replicate _ _)).2.2⟩

/-! ## Counters -/

theorem json_node_base_eq_none_iff (geometries : Bool) (codec : Codec) (node : Node) :
    json_node_base geometries codec node = none
      ↔ (node.tags.isEmpty && !geometries) = true := by
  simp only [json_node_base]
  cases geometries <;> cases node.tags.isEmpty <;> simp
  split_ifs <;> simp

/-- What one call does to the five counters: a call that stores adds 1 to the counter
of its kind, a skipped node adds 1 to `empty_objects_count`, nothing else changes. -/
theorem counters_run_with (geometries : Bool) (codec : Codec) (c : Call) (s : ObjectStore) :
    (c.run_with geometries codec s).stored_nodes_count
        = s.stored_nodes_count
          + (if c.isNode = true ∧ c.skipped_with geometries = false then 1 else 0) ∧
      (c.run_with geometries codec s).stored_ways_count
        = s.stored_ways_count + (if c.isWay = true then 1 else 0) ∧
      (c.run_with geometries codec s).stored_relations_count
        = s.stored_relations_count + (if c.isRelation = true then 1 else 0) ∧
      (c.run_with geometries codec s).empty_objects_count
        = s.empty_objects_count + (if c.skipped_with geometries = true then 1 else 0) ∧
      (c.run_with geometries codec s).stored_tags_count = s.stored_tags_count := by
  cases c with
  | store_json_node node =>
    simp only [Call.run_with, store_json_node_with, Call.isNode, Call.isWay, Call.isRelation,
      Call.skipped_with]
    cases hb : json_node_base geometries codec node with
    | none =>
      have hskip := (json_node_base_eq_none_iff geometries codec node).1 hb
      simp [hskip]
    | some base =>
      have hskip : (node.tags.isEmpty && !geometries) = false := by
        cases hs : (node.tags.isEmpty && !geometries) with
        | false => rfl
        | true =>
          rw [(json_node_base_eq_none_iff geometries codec node).2 hs] at hb
          cases hb
      simp only [store_json_object, hskip, Bool.false_eq_true, and_self, if_true, if_false]
      split_ifs <;> simp [write_batch, flush_family, report_count_stats]
  | _ =>
    simp only [Call.run_with, store_pbf_node, store_pbf_way, store_json_way_with,
      store_json_relation, store_pbf_object, store_json_object, Call.isNode, Call.isWay,
      Call.isRelation, Call.skipped_with, Bool.false_eq_true, and_self, and_false, and_true,
      false_and, true_and, if_true, if_false]
    split_ifs <;> simp [write_batch, flush_family, report_count_stats]

theorem counters_run_calls_with (geometries : Bool) (codec : Codec) (calls : List Call) :
    (∀ c ∈ calls, c.skipped_with geometries = false) → ∀ s : ObjectStore,
    (run_calls_with geometries codec calls s).stored_nodes_count
        = s.stored_nodes_count + calls.countP Call.isNode ∧
      (run_calls_with geometries codec calls s).stored_ways_count
        = s.stored_ways_count + calls.countP Call.isWay ∧
      (run_calls_with geometries codec calls s).stored_relations_count
        = s.stored_relations_count + calls.countP Call.isRelation := by
  induction calls with
  | nil => intro _ s; simp [run_calls_with]
  | cons c calls ih =>
    intro hskip s
    have hc : c.skipped_with geometries = false := hskip c (List.mem_cons_self _ _)
    obtain ⟨h1, h2, h3⟩ := ih (fun d hd => hskip d (List.mem_cons_of_mem _ hd))
      (c.run_with geometries codec s)
    obtain ⟨g1, g2, g3, _, _⟩ := counters_run_with geometries codec c s
    rw [run_calls_with_cons, h1, h2, h3, g1, g2, g3]
    simp only [List.countP_cons, hc, and_true]
    omega

/-- Every call belongs to exactly one of the three kinds. -/
theorem countP_kinds (calls : List Call) :
    calls.countP Call.isNode + calls.countP Call.isWay + calls.countP Call.isRelation
      = calls.length := by
  induction calls with
  | nil => rfl
  | cons c calls ih =>
    simp only [List.countP_cons, List.length_cons]
    cases c <;> simp [Call.isNode, Call.isWay, Call.isRelation] <;> omega

/-- C5: for every finite sequence of `store_*` calls applied to a freshly constructed
store in which no entity is skipped, `stored_nodes_count` is the number of node store
calls, `stored_ways_count` the number of way store calls, `stored_relations_count` the
number of `store_json_relation` calls and `stored_objects_count()` their sum, which is
the number of calls; each call that is not skipped adds 1 to the counter of its own kind
and leaves the four other counters as they are. -/
theorem counters_exact (geometries : Bool) (codec : Codec) (existing : DB) (create : Bool)
    (calls : List Call) (hskip : ∀ c ∈ calls, c.skipped_with geometries = false) :
    ((run_calls_with geometries codec calls
          (ObjectStore.construct existing create)).stored_nodes_count
        = calls.countP Call.isNode ∧
      (run_calls_with geometries codec calls
          (ObjectStore.construct existing create)).stored_ways_count
        = calls.countP Call.isWay ∧
      (run_calls_with geometries codec calls
          (ObjectStore.construct existing create)).stored_relations_count
        = calls.countP Call.isRelation ∧
      (run_calls_with geometries codec calls
          (ObjectStore.construct existing create)).stored_objects_count
        = calls.countP Call.isNode + calls.countP Call.isWay + calls.countP Call.isRelation ∧
      (run_calls_with geometries codec calls
          (ObjectStore.construct existing create)).stored_objects_count = calls.length) ∧
    ∀ c ∈ calls, ∀ s : ObjectStore,
      (c.run_with geometries codec s).stored_nodes_count
          = s.stored_nodes_count + (if c.isNode = true then 1 else 0) ∧
        (c.run_with geometries codec s).stored_ways_count
          = s.stored_ways_count + (if c.isWay = true then 1 else 0) ∧
        (c.run_with geometries codec s).stored_relations_count
          = s.stored_relations_count + (if c.isRelation = true then 1 else 0) ∧
        (c.run_with geometries codec s).empty_objects_count = s.empty_objects_count ∧
        (c.run_with geometries codec s).stored_tags_count = s.stored_tags_count := by
  obtain ⟨h1, h2, h3⟩ := counters_run_calls_with geometries codec calls hskip
    (ObjectStore.construct existing create)
  have z1 : (ObjectStore.construct existing create).stored_nodes_count = 0 := rfl
  have z2 : (ObjectStore.construct existing create).stored_ways_count = 0 := rfl
  have z3 : (ObjectStore.construct existing create).stored_relations_count = 0 := rfl
  rw [z1, Nat.zero_add] at h1
  rw [z2, Nat.zero_add] at h2
  rw [z3, Nat.zero_add] at h3
  refine ⟨⟨h1, h2, h3, ?_, ?_⟩, ?_⟩
  · simp only [ObjectStore.stored_objects_count, h1, h2, h3]
  · simp only [ObjectStore.stored_objects_count, h1, h2, h3, countP_kinds]
  · intro c hc s
    have hs := hskip c hc
    obtain ⟨g1, g2, g3, g4, g5⟩ := counters_run_with geometries codec c s
    refine ⟨?_, g2, g3, ?_, g5⟩
    · rw [g1]; simp [hs]
    · rw [g4]; simp [hs]

/-- Five calls, two for nodes, two for ways, one for a relation, on a store just created
with the geometries stored: the counters are 2, 2, 1 and 5. -/
theorem counters_exact_witness :
    (∀ c ∈ [Call.store_pbf_node sample_node, Call.store_json_node tagged_node,
        Call.store_pbf_way sample_way, Call.store_json_way sample_way,
        Call.store_json_relation sample_relation], c.skipped_with true = false) ∧
      (run_calls_with true sample_codec
        [Call.store_pbf_node sample_node, Call.store_json_node tagged_node,
          Call.store_pbf_way sample_way, Call.store_json_way sample_way,
          Call.store_json_relation sample_relation] fresh_store).stored_nodes_count = 2 ∧
      (run_calls_with true sample_codec
        [Call.store_pbf_node sample_node, Call.store_json_node tagged_node,
          Call.store_pbf_way sample_way, Call.store_json_way sample_way,
          Call.store_json_relation sample_relation] fresh_store).stored_objects_count = 5 :=
  ⟨by decide,
    (counters_exact true sample_codec
      { read_only := false, nodes := [], ways := [], relations := [] } true _
      (by decide)).1.1,
    (counters_exact true sample_codec
      { read_only := false, nodes := [], ways := [], relations := [] } true _
      (by decide)).1.2.2.2.2⟩

/-! ## The counter of tagged objects -/

/-- C6, as amended: no store call changes `stored_tags_count`, whether the entity
carries tags or not; storing a node, a way or a relation through the document variant
leaves it as it was, and it is 0 after any sequence of store calls on a freshly
constructed store. -/
theorem stored_tags_count_unchanged (codec : Codec) :
    (∀ (s : ObjectStore) (node : Node) (way : Way) (relation : Relation),
      (store_json_node codec node s).stored_tags_count = s.stored_tags_count ∧
      (store_json_way codec way s).stored_tags_count = s.stored_tags_count ∧
      (store_json_relation codec relation s).stored_tags_count = s.stored_tags_count) ∧
    ∀ (existing : DB) (create : Bool) (calls : List Call),
      (run_calls codec calls (ObjectStore.construct existing create)).stored_tags_count = 0 := by
  constructor
  · intro s node way relation
    exact ⟨(counters_run_with STORE_GEOMETRIES codec (Call.store_json_node node) s).2.2.2.2,
      (counters_run_with STORE_GEOMETRIES codec (Call.store_json_way way) s).2.2.2.2,
      (counters_run_with STORE_GEOMETRIES codec (Call.store_json_relation relation) s).2.2.2.2⟩
  · intro existing create calls
    have hgen : ∀ (l : List Call) (s : ObjectStore),
        (run_calls_with STORE_GEOMETRIES codec l s).stored_tags_count = s.stored_tags_count := by
      intro l
      induction l with
      | nil => intro s; rfl
      | cons c l ih =>
        intro s
        rw [run_calls_with_cons, ih,
          (counters_run_with STORE_GEOMETRIES codec c s).2.2.2.2]
    exact hgen calls _

/-- C6 fails as stated: storing a point that carries a tag through `store_json_node`
on a store just created leaves `stored_tags_count` at 0 instead of adding 1. -/
theorem stored_tags_count_not_incremented :
    tagged_node.tags = [("amenity", "cafe")] ∧
      fresh_store.stored_tags_count = 0 ∧
      (store_json_node sample_codec tagged_node fresh_store).stored_tags_count = 0 ∧
      (store_json_node sample_codec tagged_node fresh_store).stored_tags_count
        ≠ fresh_store.stored_tags_count + 1 := by
  decide

/-! ## The documents of the document variant -/

/-- The program as built always has a document to start from. -/
theorem json_node_base_built (codec : Codec) (node : Node) :
    json_node_base STORE_GEOMETRIES codec node
      = some (if node.tags.isEmpty = true ∧ node.version = 1
          then codec.extract_primary_properties node
          else codec.extract_osm_properties_node node) := by
  simp only [json_node_base, STORE_GEOMETRIES]
  by_cases ht : node.tags.isEmpty = true <;> by_cases hv : node.version = 1 <;>
    simp [ht, hv]

/-- The put of `store_json_node`: the serialised document under the key of the node, in
the column family of the nodes. -/
theorem puts_store_json_node_with (geometries : Bool) (codec : Codec) (node : Node)
    (s : ObjectStore) (base : Document)
    (hb : json_node_base geometries codec node = some base) :
    (store_json_node_with geometries codec node s).puts
      = s.puts ++ [⟨CF.nodes, make_lookup node.id node.version,
          codec.serialize (json_node_geometry geometries node base)⟩] := by
  have h := puts_run_with geometries codec (Call.store_json_node node) s
  simp only [Call.run_with, Call.put_with, Call.bytes_with, hb, Option.map_some',
    Option.toList, Call.cf, Call.id, Call.version] at h
  exact h

/-- C7: with the geometries stored, the document `store_json_node` starts from and
serialises is `extract_primary_properties(node)` when the node has no tags and version
1; it is `extract_osm_properties(node)` when the node has no tags and another version,
and whenever the node has a tag. In each case the put of the call holds that document,
with the geometry member when there is one. -/
theorem json_node_selective_inclusion (codec : Codec) (node : Node) (s : ObjectStore) :
    (node.tags = [] ∧ node.version = 1 →
      json_node_base STORE_GEOMETRIES codec node
          = some (codec.extract_primary_properties node) ∧
        (store_json_node codec node s).puts
          = s.puts ++ [⟨CF.nodes, make_lookup node.id node.version,
              codec.serialize (json_node_geometry STORE_GEOMETRIES node
                (codec.extract_primary_properties node))⟩]) ∧
    (node.tags = [] ∧ node.version ≠ 1 →
      json_node_base STORE_GEOMETRIES codec node
          = some (codec.extract_osm_properties_node node) ∧
        (store_json_node codec node s).puts
          = s.puts ++ [⟨CF.nodes, make_lookup node.id node.version,
              codec.serialize (json_node_geometry STORE_GEOMETRIES node
                (codec.extract_osm_properties_node node))⟩]) ∧
    (node.tags ≠ [] →
      json_node_base STORE_GEOMETRIES codec node
          = some (codec.extract_osm_properties_node node) ∧
        (store_json_node codec node s).puts
          = s.puts ++ [⟨CF.nodes, make_lookup node.id node.version,
              codec.serialize (json_node_geometry STORE_GEOMETRIES node
                (codec.extract_osm_properties_node node))⟩]) := by
  refine ⟨?_, ?_, ?_⟩
  · rintro ⟨ht, hv⟩
    have hb : json_node_base STORE_GEOMETRIES codec node
        = some (codec.extract_primary_properties node) := by
      rw [json_node_base_built]; simp [ht, hv]
    exact ⟨hb, puts_store_json_node_with STORE_GEOMETRIES codec node s _ hb⟩
  · rintro ⟨ht, hv⟩
    have hb : json_node_base STORE_GEOMETRIES codec node
        = some (codec.extract_osm_properties_node node) := by
      rw [json_node_base_built]; simp [ht, hv]
    exact ⟨hb, puts_store_json_node_with STORE_GEOMETRIES codec node s _ hb⟩
  · intro ht
    have hb : json_node_base STORE_GEOMETRIES codec node
        = some (codec.extract_osm_properties_node node) := by
      rw [json_node_base_built]; simp [ht]
    exact ⟨hb, puts_store_json_node_with STORE_GEOMETRIES codec node s _ hb⟩

/-- A point without tags: version 1 starts from the primary properties, the same point
at version 2 from the full set. -/
theorem json_node_selective_inclusion_witness :
    (sample_node.tags = [] ∧ sample_node.version = 1) ∧
      json_node_base STORE_GEOMETRIES sample_codec sample_node = some [("i", Json.int 7)] ∧
      json_node_base STORE_GEOMETRIES sample_codec { sample_node with version := 2 }
        = some [("i", Json.int 7), ("v", Json.int 2)] :=
  ⟨⟨rfl, rfl⟩,
    ((json_node_selective_inclusion sample_codec sample_node fresh_store).1 ⟨rfl, rfl⟩).1,
    ((json_node_selective_inclusion sample_codec { sample_node with version := 2 }
      fresh_store).2.1 ⟨rfl, by decide⟩).1⟩

theorem foldl_push_back (refs : List Int) : ∀ acc : List Json,
    refs.foldl (fun nodes nr => nodes ++ [Json.int nr]) acc = acc ++ refs.map Json.int := by
  induction refs with
  | nil => intro acc; simp
  | cons r refs ih => intro acc; simp [ih]

theorem json_way_document_eq (geometries : Bool) (codec : Codec) (way : Way) :
    json_way_document geometries codec way
      = if (!way.deleted && geometries) = true then
          codec.extract_osm_properties_way way ++ [("r", Json.arr (way.nodes.map Json.int))]
        else codec.extract_osm_properties_way way := by
  simp [json_way_document, Document.AddMember, foldl_push_back]

/-- C8: for every way that is not deleted, the document `store_json_way` queues is
`extract_osm_properties(way)` extended by one member "r" whose value is the array of the
node ids of the way, of the same length and in the source order, element i being the
i-th reference; for every deleted way the document is `extract_osm_properties(way)` with
nothing added. -/
theorem json_way_reference_order (codec : Codec) (way : Way) (s : ObjectStore) :
    (way.deleted = false →
      (store_json_way codec way s).puts
          = s.puts ++ [⟨CF.ways, make_lookup way.id way.version,
              codec.serialize (codec.extract_osm_properties_way way
                ++ [("r", Json.arr (way.nodes.map Json.int))])⟩] ∧
        (way.nodes.map Json.int).length = way.nodes.length ∧
        ∀ i : Nat, (way.nodes.map Json.int)[i]? = (way.nodes[i]?).map Json.int) ∧
    (way.deleted = true →
      (store_json_way codec way s).puts
        = s.puts ++ [⟨CF.ways, make_lookup way.id way.version,
            codec.serialize (codec.extract_osm_properties_way way)⟩]) := by
  have h := puts_run_with STORE_GEOMETRIES codec (Call.store_json_way way) s
  simp only [Call.run_with, Call.put_with, Call.bytes_with, Option.map_some',
    Option.toList, Call.cf, Call.id, Call.version, json_way_document_eq] at h
  constructor
  · intro hd
    refine ⟨?_, by simp, fun i => by simp⟩
    rw [store_json_way, h]
    simp [hd, STORE_GEOMETRIES]
  · intro hd
    rw [store_json_way, h]
    simp [hd]

/-- The way with the references 10, 20, 30 is queued with "r" holding 10, 20, 30 in
that order. -/
theorem json_way_reference_order_witness :
    sample_way.deleted = false ∧
      (store_json_way sample_codec sample_way fresh_store).puts
        = [⟨CF.ways, "7!1", sample_codec.serialize
            [("i", Json.int 7), ("v", Json.int 1), ("highway", Json.str "path"),
              ("r", Json.arr [Json.int 10, Json.int 20, Json.int 30])]⟩] :=
  ⟨rfl, ((json_way_reference_order sample_codec sample_way fresh_store).1 rfl).1⟩

/-- C9: for every node that is not deleted and has a valid location, the document
`store_json_node` queues is the base document extended by one member "g" whose value is
the 2-element array of the longitude followed by the latitude; for every deleted node
the document is the base document with nothing added. -/
theorem json_node_geometry_pair (codec : Codec) (node : Node) (s : ObjectStore) :
    ∃ base : Document, json_node_base STORE_GEOMETRIES codec node = some base ∧
      (∀ lon lat : Rat, node.deleted = false → node.location.lon = some lon →
        node.location.lat = some lat →
        (store_json_node codec node s).puts
          = s.puts ++ [⟨CF.nodes, make_lookup node.id node.version,
              codec.serialize
                (base ++ [("g", Json.arr [Json.double lon, Json.double lat])])⟩]) ∧
      (node.deleted = true →
        (store_json_node codec node s).puts
          = s.puts ++ [⟨CF.nodes, make_lookup node.id node.version,
              codec.serialize base⟩]) := by
  refine ⟨_, json_node_base_built codec node, ?_, ?_⟩
  · intro lon lat hd hlon hlat
    rw [store_json_node,
      puts_store_json_node_with STORE_GEOMETRIES codec node s _ (json_node_base_built codec node)]
    simp [json_node_geometry, hd, hlon, hlat, STORE_GEOMETRIES, Document.AddMember]
  · intro hd
    rw [store_json_node,
      puts_store_json_node_with STORE_GEOMETRIES codec node s _ (json_node_base_built codec node)]
    simp [json_node_geometry, hd]

/-- The point at (lon 7.5, lat 51.2) is queued with "g" holding 7.5 and then 51.2. -/
theorem json_node_geometry_pair_witness :
    sample_node.deleted = false ∧ sample_node.location.valid = true ∧
      (store_json_node sample_codec sample_node fresh_store).puts
        = [⟨CF.nodes, "7!1", sample_codec.serialize
            [("i", Json.int 7), ("g", Json.arr [Json.double (15 / 2), Json.double (256 / 5)])]⟩] := by
  obtain ⟨base, hb, h1, _⟩ := json_node_geometry_pair sample_codec sample_node fresh_store
  have hbase : base = [("i", Json.int 7)] := by
    have h2 : json_node_base STORE_GEOMETRIES sample_codec sample_node
        = some [("i", Json.int 7)] := rfl
    rw [hb] at h2
    exact Option.some.inj h2
  subst hbase
  exact ⟨rfl, rfl, h1 (15 / 2) (256 / 5) rfl rfl rfl⟩

/-- C10: for every node that is not deleted and whose location is invalid,
`store_json_node` still queues the record under `make_lookup(id, version)`, with the
base document and no member "g" added, and adds 1 to `stored_nodes_count`; the call
returns a store in every case. -/
theorem invalid_location_still_stored (codec : Codec) (node : Node) (s : ObjectStore)
    (hdel : node.deleted = false) (hinv : node.location.valid = false) :
    ∃ base : Document, json_node_base STORE_GEOMETRIES codec node = some base ∧
      (store_json_node codec node s).puts
        = s.puts ++ [⟨CF.nodes, make_lookup node.id node.version, codec.serialize base⟩] ∧
      (store_json_node codec node s).stored_nodes_count = s.stored_nodes_count + 1 := by
  refine ⟨_, json_node_base_built codec node, ?_, ?_⟩
  · rw [store_json_node,
      puts_store_json_node_with STORE_GEOMETRIES codec node s _ (json_node_base_built codec node)]
    have hgeo : ∀ json : Document, json_node_geometry STORE_GEOMETRIES node json = json := by
      intro json
      simp only [Location.valid] at hinv
      simp only [json_node_geometry, hdel]
      cases hlon : node.location.lon with
      | none => simp
      | some lon =>
        cases hlat : node.location.lat with
        | none => simp
        | some lat => rw [hlon, hlat] at hinv; cases hinv
    rw [hgeo]
  · have h := (counters_run_with STORE_GEOMETRIES codec (Call.store_json_node node) s).1
    simp only [Call.run_with, Call.isNode, Call.skipped_with, STORE_GEOMETRIES] at h
    rw [store_json_node, STORE_GEOMETRIES, h]
    simp

/-- The point whose location cannot be read is queued with its properties only, and
counted. -/
theorem invalid_location_still_stored_witness :
    invalid_node.deleted = false ∧ invalid_node.location.valid = false ∧
      (store_json_node sample_codec invalid_node fresh_store).puts
        = [⟨CF.nodes, "9!3", sample_codec.serialize [("i", Json.int 9), ("v", Json.int 3)]⟩] ∧
      (store_json_node sample_codec invalid_node fresh_store).stored_nodes_count = 1 := by
  obtain ⟨base, hb, h1, h2⟩ :=
    invalid_location_still_stored sample_codec invalid_node fresh_store rfl rfl
  have hbase : base = [("i", Json.int 9), ("v", Json.int 3)] := by
    have h3 : json_node_base STORE_GEOMETRIES sample_codec invalid_node
        = some [("i", Json.int 9), ("v", Json.int 3)] := rfl
    rw [hb] at h3
    exact Option.some.inj h3
  subst hbase
  exact ⟨rfl, rfl, h1, h2⟩

/-! ## The skipped node -/

theorem bytes_with_of_skipped (geometries : Bool) (codec : Codec) (c : Call)
    (h : c.skipped_with geometries = true) : c.bytes_with geometries codec = none := by
  cases c with
  | store_json_node node =>
    simp only [Call.skipped_with] at h
    simp only [Call.bytes_with, (json_node_base_eq_none_iff geometries codec node).2 h,
      Option.map_none']
  | _ => simp [Call.skipped_with] at h

theorem foldl_last_bytes_step_of_skipped (geometries : Bool) (codec : Codec)
    (osm_type id version : Int) (calls : List Call)
    (h : ∀ c ∈ calls, c.osm_type = osm_type → c.id = id → c.version = version →
      c.skipped_with geometries = true) (found : Option String) :
    calls.foldl (last_bytes_step geometries codec osm_type id version) found = found := by
  induction calls generalizing found with
  | nil => rfl
  | cons c calls ih =>
    rw [List.foldl_cons, ih (fun d hd => h d (List.mem_cons_of_mem _ hd))]
    simp only [last_bytes_step]
    split_ifs with hm
    · rw [bytes_with_of_skipped geometries codec c
        (h c (List.mem_cons_self _ _) hm.1 hm.2.1 hm.2.2)]
    · rfl

/-- C11: when geometry storage is disabled, `store_json_node` on a node with no tags adds
exactly 1 to `empty_objects_count`, appends nothing to the pending batch, leaves
`stored_nodes_count`, the engine and the trace of engine calls (no write, no flush) as
they are, so `get_tags` answers after the call what it answered before; and on a store
created in write mode, when no other call stores under the key of the node,
`get_tags(id, 1, version)` answers NotFound after `flush()`. -/
theorem skipped_node_not_stored (codec : Codec) (node : Node) (s : ObjectStore)
    (ht : node.tags = []) :
    (store_json_node_with false codec node s).empty_objects_count
        = s.empty_objects_count + 1 ∧
      (store_json_node_with false codec node s).m_buffer_batch = s.m_buffer_batch ∧
      (store_json_node_with false codec node s).stored_nodes_count = s.stored_nodes_count ∧
      (store_json_node_with false codec node s).trace = s.trace ∧
      (store_json_node_with false codec node s).m_db = s.m_db ∧
      (∀ id osm_type version : Int,
        get_tags id osm_type version (store_json_node_with false codec node s)
          = get_tags id osm_type version s) ∧
      ∀ (existing : DB) (before after : List Call),
        (∀ c ∈ before ++ after, c.osm_type = 1 → c.id = node.id →
          c.version = node.version → c.skipped_with false = true) →
        get_tags node.id 1 node.version
            (flush (run_calls_with false codec
              (before ++ [Call.store_json_node node] ++ after)
              (ObjectStore.construct existing true)))
          = none := by
  have hbase : json_node_base false codec node = none := by
    rw [json_node_base_eq_none_iff]; simp [ht]
  have hrun : store_json_node_with false codec node s
      = { s with empty_objects_count := s.empty_objects_count + 1 } := by
    simp only [store_json_node_with, hbase]
  refine ⟨by rw [hrun], by rw [hrun], by rw [hrun], by rw [hrun], by rw [hrun], ?_, ?_⟩
  · intro id osm_type version
    rw [hrun]; rfl
  · intro existing before after hother
    rw [get_tags_flush_run_calls_with false codec existing _ 1 node.id node.version
      (Or.inl rfl)]
    apply foldl_last_bytes_step_of_skipped
    intro c hc h1 h2 h3
    simp only [List.append_assoc, List.mem_append, List.mem_cons, List.mem_singleton,
      List.not_mem_nil, or_false] at hc
    rcases hc with hc | hc | hc
    · exact hother c (List.mem_append.2 (Or.inl hc)) h1 h2 h3
    · subst hc
      simp [Call.skipped_with, ht]
    · exact hother c (List.mem_append.2 (Or.inr hc)) h1 h2 h3

/-- The point without tags, stored alone on a store just created with the geometries not
stored: counted as empty, not queued, not found after `flush()`. -/
theorem skipped_node_not_stored_witness :
    sample_node.tags = [] ∧
      (store_json_node_with false sample_codec sample_node fresh_store).empty_objects_count
        = 1 ∧
      (store_json_node_with false sample_codec sample_node fresh_store).m_buffer_batch
        = [] ∧
      get_tags 7 1 1
          (flush (run_calls_with false sample_codec [Call.store_json_node sample_node]
            fresh_store))
        = none :=
  ⟨rfl, (skipped_node_not_stored sample_codec sample_node fresh_store rfl).1,
    (skipped_node_not_stored sample_codec sample_node fresh_store rfl).2.1,
    (skipped_node_not_stored sample_codec sample_node fresh_store rfl).2.2.2.2.2.2
      { read_only := false, nodes := [], ways := [], relations := [] } [] []
      (fun c hc => by cases hc)⟩

/-! ## The flush of a partition -/

theorem flushed_append (a b : List Event) : flushed (a ++ b) = flushed a ++ flushed b := by
  induction a with
  | nil => rfl
  | cons e a ih => cases e <;> simp [flushed, ih]

/-- The engine calls of one call of the program as built: the batch write when the batch
passes its limit, then the flush of the partition of the call and the stats report when
the counter of its kind has reached a multiple of the threshold. -/
theorem trace_run (codec : Codec) (c : Call) (s : ObjectStore) :
    (c.run codec s).trace
      = s.trace
        ++ (if c.batch_limit < s.m_buffer_batch.length + 1
            then [Event.write (s.m_buffer_batch ++ (c.put_with STORE_GEOMETRIES codec).toList)]
            else [])
        ++ (if 0 < c.counter s + 1 ∧ (c.counter s + 1) % c.flush_threshold = 0
            then [Event.flush_family c.cf, Event.report_count_stats] else []) := by
  cases c with
  | store_json_node node =>
    simp only [Call.run, Call.run_with, store_json_node_with, json_node_base_built,
      store_json_object, Call.batch_limit, Call.counter, Call.flush_threshold, Call.cf,
      Call.id, Call.version, Call.put_with, Call.bytes_with, Option.map_some',
      Option.toList]
    split_ifs <;>
      simp_all [write_batch, flush_family, report_count_stats]
  | _ =>
    simp only [Call.run, Call.run_with, store_pbf_node, store_pbf_way, store_json_way_with,
      store_json_relation, store_pbf_object, store_json_object, Call.batch_limit,
      Call.counter, Call.flush_threshold, Call.cf, Call.id, Call.version, Call.put_with,
      Call.bytes_with, Option.map_some', Option.toList]
    split_ifs <;>
      simp_all [write_batch, flush_family, report_count_stats]

theorem counter_run (codec : Codec) (c : Call) (s : ObjectStore) :
    c.counter (c.run codec s) = c.counter s + 1 := by
  obtain ⟨h1, h2, h3, _, _⟩ := counters_run_with STORE_GEOMETRIES codec c s
  cases c <;>
    simp_all [Call.run, Call.counter, Call.isNode, Call.isWay, Call.isRelation,
      Call.skipped_with, STORE_GEOMETRIES]

/-- C12: each store call of the program as built adds 1 to the counter of its kind and
then flushes its own partition, the stats report following, exactly when that counter is
a positive multiple of the threshold of its kind and variant (`store_pbf_node` 5,000,000;
`store_json_node` 4,000,000; `store_pbf_way` and `store_json_way` 2,000,000;
`store_json_relation` 1,000,000); besides the batch write these are the only engine calls
it makes, and the number of flushes of any other partition stays as it was. -/
theorem partition_flush_thresholds (codec : Codec) (c : Call) (s : ObjectStore) :
    c.counter (c.run codec s) = c.counter s + 1 ∧
      (c.run codec s).trace
        = s.trace
          ++ (if c.batch_limit < s.m_buffer_batch.length + 1
              then [Event.write
                (s.m_buffer_batch ++ (c.put_with STORE_GEOMETRIES codec).toList)]
              else [])
          ++ (if 0 < c.counter (c.run codec s)
                ∧ c.counter (c.run codec s) % c.flush_threshold = 0
              then [Event.flush_family c.cf, Event.report_count_stats] else []) ∧
      flushed (c.run codec s).trace
        = flushed s.trace
          ++ (if 0 < c.counter (c.run codec s)
                ∧ c.counter (c.run codec s) % c.flush_threshold = 0
              then [c.cf] else []) ∧
      ∀ cf : CF, cf ≠ c.cf →
        (flushed (c.run codec s).trace).count cf = (flushed s.trace).count cf := by
  have hcount := counter_run codec c s
  have htrace := trace_run codec c s
  have hflushed : flushed (c.run codec s).trace
      = flushed s.trace
        ++ (if 0 < c.counter (c.run codec s)
              ∧ c.counter (c.run codec s) % c.flush_threshold = 0
            then [c.cf] else []) := by
    rw [htrace, hcount]
    simp only [flushed_append]
    split_ifs <;> simp [flushed]
  refine ⟨hcount, ?_, hflushed, ?_⟩
  · rw [htrace, hcount]
  · intro cf hne
    rw [hflushed]
    split_ifs
    · rw [List.count_append, List.count_singleton]
      simp [hne.symm]
    · simp

/-- The call that brings `stored_nodes_count` to 5,000,000 through `store_pbf_node`
flushes the nodes and reports; the same count reached through `store_json_node`, whose
threshold is 4,000,000, flushes nothing. -/
theorem partition_flush_thresholds_witness :
    ((Call.store_pbf_node sample_node).run sample_codec
        { fresh_store with stored_nodes_count := 4999999 }).trace
      = [Event.flush_family CF.nodes, Event.report_count_stats] ∧
    ((Call.store_json_node sample_node).run sample_codec
        { fresh_store with stored_nodes_count := 4999999 }).trace = [] :=
  ⟨(partition_flush_thresholds sample_codec (Call.store_pbf_node sample_node)
      { fresh_store with stored_nodes_count := 4999999 }).2.1.trans (by decide),
    (partition_flush_thresholds sample_codec (Call.store_json_node sample_node)
      { fresh_store with stored_nodes_count := 4999999 }).2.1.trans (by decide)⟩

/-! ## Construction -/

/-- C13, the code at the failing input and around it: with `create = true` and a failed
`DB::Open` the constructor does not abort; it goes on to `CreateColumnFamily` through the
`m_db` that the failed open left null. Every other failure aborts at its assert: a
failed `OpenForReadOnly` with `create = false`, and a failed `CreateColumnFamily` after a
successful open; when every status is ok the store is constructed. -/
theorem construct_checked_failures (existing : DB) :
    ObjectStore.construct_checked
        { open_ok := false, nodes_ok := true, ways_ok := true, relations_ok := true }
        existing true
      = ([Setup.DestroyDB, Setup.Open, Setup.CreateColumnFamily CF.nodes],
          Construction.undefined) ∧
    (∀ answers : EngineAnswers, answers.open_ok = false →
      (ObjectStore.construct_checked answers existing true).2 ≠ Construction.aborted ∧
      Setup.CreateColumnFamily CF.nodes
        ∈ (ObjectStore.construct_checked answers existing true).1) ∧
    (∀ answers : EngineAnswers, answers.open_ok = false →
      ObjectStore.construct_checked answers existing false
        = ([Setup.OpenForReadOnly], Construction.aborted)) ∧
    (∀ answers : EngineAnswers, answers.open_ok = true →
      answers.nodes_ok = false ∨ answers.ways_ok = false ∨ answers.relations_ok = false →
      (ObjectStore.construct_checked answers existing true).2 = Construction.aborted) ∧
    (∀ (answers : EngineAnswers) (create : Bool), answers.open_ok = true →
      (create = true →
        answers.nodes_ok = true ∧ answers.ways_ok = true ∧ answers.relations_ok = true) →
      (ObjectStore.construct_checked answers existing create).2
        = Construction.constructed (ObjectStore.construct existing create)) := by
  refine ⟨rfl, ?_, ?_, ?_, ?_⟩
  · intro answers h
    simp [ObjectStore.construct_checked, h]
  · intro answers h
    simp [ObjectStore.construct_checked, h]
  · intro answers h hcf
    obtain ⟨o, n, w, r⟩ := answers
    simp only at h hcf
    subst h
    cases n <;> cases w <;> cases r <;> simp_all [ObjectStore.construct_checked]
  · intro answers create h hcf
    obtain ⟨o, n, w, r⟩ := answers
    simp only at h hcf
    subst h
    cases create
    · simp [ObjectStore.construct_checked]
    · obtain ⟨h1, h2, h3⟩ := hcf rfl
      subst h1 h2 h3
      simp [ObjectStore.construct_checked]

/-! ## Writing to a store opened for reading -/

theorem DB.Write_read_only (db : DB) (batch : List BatchOp) (h : db.read_only = true) :
    (db.Write batch).2 = db := by
  simp [DB.Write, h]

/-- A call changes nothing in an engine opened read-only. -/
theorem m_db_run_with_read_only (geometries : Bool) (codec : Codec) (c : Call)
    (s : ObjectStore) (h : s.m_db.read_only = true) :
    (c.run_with geometries codec s).m_db = s.m_db := by
  cases c with
  | store_json_node node =>
    simp only [Call.run_with, store_json_node_with]
    cases hb : json_node_base geometries codec node with
    | none => rfl
    | some base =>
      simp only [store_json_object]
      split_ifs <;>
        simp [write_batch, flush_family, report_count_stats, DB.Write, h]
  | _ =>
    simp only [Call.run_with, store_pbf_node, store_pbf_way, store_json_way_with,
      store_json_relation, store_pbf_object, store_json_object]
    split_ifs <;>
      simp [write_batch, flush_family, report_count_stats, DB.Write, h]

theorem m_db_flush_read_only (s : ObjectStore) (h : s.m_db.read_only = true) :
    (flush s).m_db = s.m_db := by
  simp [flush, write_batch, flush_family, compact_family, report_count_stats, DB.Write, h]

theorem m_db_run_ops_with_read_only (geometries : Bool) (codec : Codec) (ops : List Op) :
    ∀ s : ObjectStore, s.m_db.read_only = true →
      (run_ops_with geometries codec ops s).m_db = s.m_db := by
  induction ops with
  | nil => intro s _; rfl
  | cons o ops ih =>
    intro s h
    have hstep : (o.run_with geometries codec s).m_db = s.m_db := by
      cases o with
      | call c => exact m_db_run_with_read_only geometries codec c s h
      | flush => exact m_db_flush_read_only s h
    have hfold : run_ops_with geometries codec (o :: ops) s
        = run_ops_with geometries codec ops (o.run_with geometries codec s) := rfl
    rw [hfold, ih _ (by rw [hstep]; exact h), hstep]

/-- C14, as amended: on a store opened with `create = false` a write operation completes
as if the write had been accepted. `store_pbf_object` and `store_json_object` return
true, every store call of the program as built adds 1 to the counter of its kind and
queues its put, and no error results; the engine refuses every batch write, its status
is dropped and `flush()` clears the batch, so whatever calls and flushes are made the
contents of the engine stay as they were and the records are lost. -/
theorem read_only_writes_silently_dropped (codec : Codec) (existing : DB) :
    (ObjectStore.construct existing false).m_db.read_only = true ∧
    ∀ s : ObjectStore, s.m_db.read_only = true →
      (∀ (value lookup : String) (cf : CF), (store_pbf_object value lookup cf s).1 = true) ∧
      (∀ (doc : Document) (lookup : String) (cf : CF),
        (store_json_object codec doc lookup cf s).1 = true) ∧
      (∀ c : Call,
        c.counter (c.run codec s) = c.counter s + 1 ∧
        (c.run codec s).puts = s.puts ++ (c.put_with STORE_GEOMETRIES codec).toList ∧
        (c.run codec s).m_db = s.m_db ∧
        (flush (c.run codec s)).m_db = s.m_db ∧
        (flush (c.run codec s)).m_buffer_batch = [] ∧
        get_tags c.id c.osm_type c.version (flush (c.run codec s))
          = get_tags c.id c.osm_type c.version s) ∧
      ∀ ops : List Op, (run_ops codec ops s).m_db = s.m_db := by
  refine ⟨rfl, ?_⟩
  intro s h
  refine ⟨fun _ _ _ => rfl, fun _ _ _ => rfl, ?_, ?_⟩
  · intro c
    have hdb : (c.run codec s).m_db = s.m_db :=
      m_db_run_with_read_only STORE_GEOMETRIES codec c s h
    have hfl : (flush (c.run codec s)).m_db = s.m_db := by
      rw [m_db_flush_read_only _ (by rw [hdb]; exact h), hdb]
    refine ⟨counter_run codec c s, puts_run_with STORE_GEOMETRIES codec c s, hdb, hfl,
      m_buffer_batch_flush _, ?_⟩
    rw [get_tags_eq, get_tags_eq, hfl]
  · intro ops
    exact m_db_run_ops_with_read_only STORE_GEOMETRIES codec ops s h

/-- On the store opened for reading, `store_pbf_node` followed by `flush()` counts the
node and leaves the engine as it was. -/
theorem read_only_writes_silently_dropped_witness :
    read_only_store.m_db.read_only = true ∧
      (run_ops sample_codec [Op.call (Call.store_pbf_node sample_node), Op.flush]
        read_only_store).m_db = read_only_store.m_db :=
  ⟨rfl,
    ((read_only_writes_silently_dropped sample_codec
      { read_only := false, nodes := [("1!1", "node 1!1")], ways := [], relations := [] }).2
      read_only_store rfl).2.2.2 _⟩

/-- C14 fails as stated: on the store opened with `create = false`, `store_pbf_object`
returns true, `store_pbf_node` brings `stored_nodes_count` to 1, and after `flush()` the
batch is empty, the engine holds what it held and the node is not found. -/
theorem read_only_store_accepts_write :
    read_only_store.m_db.read_only = true ∧
      (store_pbf_object "node 7!1" "7!1" CF.nodes read_only_store).1 = true ∧
      (store_pbf_node sample_codec sample_node read_only_store).stored_nodes_count = 1 ∧
      (store_pbf_node sample_codec sample_node read_only_store).trace = [] ∧
      (flush (store_pbf_node sample_codec sample_node read_only_store)).m_buffer_batch
        = [] ∧
      (flush (store_pbf_node sample_codec sample_node read_only_store)).m_db
        = read_only_store.m_db ∧
      get_tags 7 1 1 (flush (store_pbf_node sample_codec sample_node read_only_store))
        = none := by
  decide

/-! ## Partitions and dispatch -/

theorem osm_type_of_isNode (c : Call) (h : c.isNode = true) : c.osm_type = 1 := by
  cases c <;> simp_all [Call.isNode, Call.osm_type]

theorem osm_type_of_isWay (c : Call) (h : c.isWay = true) : c.osm_type = 2 := by
  cases c <;> simp_all [Call.isWay, Call.osm_type]

/-- What `get_tags` finds after two calls and `flush()` on a store in write mode: the
two calls applied in order, by `last_bytes_step`, to what the engine and the batch held
under the key. -/
theorem get_tags_flush_two_calls (codec : Codec) (s : ObjectStore)
    (hw : s.m_db.read_only = false) (c1 c2 : Call) (osm_type id version : Int)
    (hk : osm_type = 1 ∨ osm_type = 2 ∨ osm_type = 3) :
    get_tags id osm_type version (flush (c2.run codec (c1.run codec s)))
      = last_bytes_step STORE_GEOMETRIES codec osm_type id version
          (last_bytes_step STORE_GEOMETRIES codec osm_type id version
            (s.view.Get (family_of_type osm_type) (make_lookup id version)) c1) c2 := by
  have hw1 : (c1.run codec s).m_db.read_only = false := by
    rw [Call.run, read_only_run_with, hw]
  have hw2 : (c2.run codec (c1.run codec s)).m_db.read_only = false := by
    rw [Call.run, read_only_run_with]; exact hw1
  rw [get_tags_eq, m_db_flush _ hw2, Call.run,
    get_view_run_with STORE_GEOMETRIES codec osm_type id version hk c2 _ hw1, Call.run,
    get_view_run_with STORE_GEOMETRIES codec osm_type id version hk c1 s hw]

/-- C15: for every node call and way call whose entities share the id and the version,
hence the key, on a store in write mode: after both calls, in either order, and
`flush()`, `get_tags(id, 1, version)` returns the bytes of the node and
`get_tags(id, 2, version)` the bytes of the way; and a put in one column family leaves
every read of another column family as it was. -/
theorem partitions_independent (codec : Codec) (s : ObjectStore)
    (hw : s.m_db.read_only = false) (cn cw : Call) (hn : cn.isNode = true)
    (hwy : cw.isWay = true) (hid : cn.id = cw.id) (hv : cn.version = cw.version) :
    make_lookup cn.id cn.version = make_lookup cw.id cw.version ∧
    (∃ bn bw : String, cn.bytes codec = some bn ∧ cw.bytes codec = some bw ∧
      get_tags cn.id 1 cn.version (flush (cw.run codec (cn.run codec s))) = some bn ∧
      get_tags cn.id 2 cn.version (flush (cw.run codec (cn.run codec s))) = some bw ∧
      get_tags cn.id 1 cn.version (flush (cn.run codec (cw.run codec s))) = some bn ∧
      get_tags cn.id 2 cn.version (flush (cn.run codec (cw.run codec s))) = some bw) ∧
    ∀ (db : DB) (op : BatchOp) (cf : CF) (key : String), op.cf ≠ cf →
      (db.Put op).Get cf key = db.Get cf key := by
  obtain ⟨bn, hbn⟩ := bytes_isSome codec cn
  obtain ⟨bw, hbw⟩ := bytes_isSome codec cw
  have hn1 := osm_type_of_isNode cn hn
  have hw2 := osm_type_of_isWay cw hwy
  have hbn' : cn.bytes_with STORE_GEOMETRIES codec = some bn := hbn
  have hbw' : cw.bytes_with STORE_GEOMETRIES codec = some bw := hbw
  refine ⟨by rw [hid, hv], ⟨bn, bw, hbn, hbw, ?_, ?_, ?_, ?_⟩, ?_⟩
  · rw [get_tags_flush_two_calls codec s hw cn cw 1 _ _ (Or.inl rfl)]
    simp [last_bytes_step, hn1, hw2, hbn']
  · rw [get_tags_flush_two_calls codec s hw cn cw 2 _ _ (Or.inr (Or.inl rfl))]
    simp [last_bytes_step, hn1, hw2, hbw', hid, hv]
  · rw [get_tags_flush_two_calls codec s hw cw cn 1 _ _ (Or.inl rfl)]
    simp [last_bytes_step, hn1, hw2, hbn']
  · rw [get_tags_flush_two_calls codec s hw cw cn 2 _ _ (Or.inr (Or.inl rfl))]
    simp [last_bytes_step, hn1, hw2, hbw', hid, hv]
  · intro db op cf key hne
    rw [DB.Get_Put]
    simp [hne]

/-- The point and the way of id 7 and version 1 share the key "7!1"; stored one after the
other and flushed, each is found in its partition. -/
theorem partitions_independent_witness :
    fresh_store.m_db.read_only = false ∧
      make_lookup sample_node.id sample_node.version
        = make_lookup sample_way.id sample_way.version ∧
      get_tags 7 1 1
          (flush (store_pbf_way sample_codec sample_way
            (store_pbf_node sample_codec sample_node fresh_store)))
        = some "node 7!1" ∧
      get_tags 7 2 1
          (flush (store_pbf_way sample_codec sample_way
            (store_pbf_node sample_codec sample_node fresh_store)))
        = some "way 7!1" := by
  obtain ⟨hkey, ⟨bn, bw, hbn, hbw, h1, h2, _, _⟩, _⟩ :=
    partitions_independent sample_codec fresh_store rfl (Call.store_pbf_node sample_node)
      (Call.store_pbf_way sample_way) rfl rfl rfl rfl
  have e1 : bn = "node 7!1" := by
    have h : (Call.store_pbf_node sample_node).bytes sample_codec = some "node 7!1" := by
      decide
    rw [hbn] at h
    exact Option.some.inj h
  have e2 : bw = "way 7!1" := by
    have h : (Call.store_pbf_way sample_way).bytes sample_codec = some "way 7!1" := by
      decide
    rw [hbw] at h
    exact Option.some.inj h
  subst e1 e2
  exact ⟨rfl, hkey, h1, h2⟩

/-- C16: for every id, version and `osm_type`, `get_tags(id, osm_type, version)` is the
point read of the key `make_lookup(id, version)` in the nodes partition when `osm_type`
is 1, in the ways partition when it is 2, and in the relations partition for every other
value, 3 as well as 0, negative or larger values; it is a function of the contents of
the engine and returns no new store. -/
theorem get_tags_dispatch (s : ObjectStore) (osm_id osm_type version : Int) :
    (osm_type = 1 →
      get_tags osm_id osm_type version s = s.m_db.Get CF.nodes (make_lookup osm_id version)) ∧
    (osm_type = 2 →
      get_tags osm_id osm_type version s = s.m_db.Get CF.ways (make_lookup osm_id version)) ∧
    (osm_type ≠ 1 → osm_type ≠ 2 →
      get_tags osm_id osm_type version s
        = s.m_db.Get CF.relations (make_lookup osm_id version)) ∧
    get_tags osm_id 3 version s = s.m_db.Get CF.relations (make_lookup osm_id version) ∧
    get_tags osm_id 0 version s = s.m_db.Get CF.relations (make_lookup osm_id version) ∧
    get_tags osm_id (-1) version s = s.m_db.Get CF.relations (make_lookup osm_id version) ∧
    ∀ s2 : ObjectStore, s2.m_db = s.m_db →
      get_tags osm_id osm_type version s2 = get_tags osm_id osm_type version s := by
  refine ⟨?_, ?_, ?_, rfl, rfl, rfl, ?_⟩
  · intro h; simp [get_tags, h]
  · intro h; simp [get_tags, h]
  · intro h1 h2; simp [get_tags, h1, h2]
  · intro s2 h; simp [get_tags, h]

/-- On the store opened for reading, which holds one node under "1!1": type 1 reads the
nodes and finds it, type 4 reads the relations and does not. -/
theorem get_tags_dispatch_witness :
    get_tags 1 1 1 read_only_store = some "node 1!1" ∧
      get_tags 1 4 1 read_only_store = none :=
  ⟨((get_tags_dispatch read_only_store 1 1 1).1 rfl).trans (by decide),
    ((get_tags_dispatch read_only_store 1 4 1).2.2.1 (by decide) (by decide)).trans
      (by decide)⟩

/-! ## The order of keys -/

/-- C17: the byte-wise order of keys is not the numeric order: versions 9 < 10 of id 1
have keys "1!9" and "1!10" with "1!10" before "1!9", and ids 9 < 10 at version 1 have keys
"9!1" and "10!1" with "10!1" before "9!1"; so there are an id and versions v1 < v2, and
ids id1 < id2 and a version, whose keys are in the opposite order. -/
theorem key_order_not_numeric :
    (make_lookup 1 9 = "1!9" ∧ make_lookup 1 10 = "1!10" ∧
      bytewise_lt (make_lookup 1 10).data (make_lookup 1 9).data = true) ∧
    (make_lookup 9 1 = "9!1" ∧ make_lookup 10 1 = "10!1" ∧
      bytewise_lt (make_lookup 10 1).data (make_lookup 9 1).data = true) ∧
    (∃ id v1 v2 : Int, v1 < v2 ∧
      bytewise_lt (make_lookup id v2).data (make_lookup id v1).data = true) ∧
    (∃ id1 id2 v : Int, id1 < id2 ∧
      bytewise_lt (make_lookup id2 v).data (make_lookup id1 v).data = true) := by
  refine ⟨by decide, by decide, ⟨1, 9, 10, by decide, by decide⟩,
    ⟨9, 10, 1, by decide, by decide⟩⟩

/-! ## The size of the pending batch -/

/-- After `store_json_object` the batch holds at most 1000 puts, whatever it held. -/
theorem length_store_json_object (codec : Codec) (doc : Document) (lookup : String)
    (cf : CF) (s : ObjectStore) :
    (store_json_object codec doc lookup cf s).2.m_buffer_batch.length ≤ 1000 := by
  simp only [store_json_object]
  split_ifs with h
  · simp [write_batch]
  · simpa using h

/-- After `store_pbf_object` the batch holds at most 2000 puts, whatever it held. -/
theorem length_store_pbf_object (value lookup : String) (cf : CF) (s : ObjectStore) :
    (store_pbf_object value lookup cf s).2.m_buffer_batch.length ≤ 2000 := by
  simp only [store_pbf_object]
  split_ifs with h
  · simp [write_batch]
  · simpa using h

/-- A call keeps a batch of at most 2000 puts within 2000. -/
theorem length_run_with (geometries : Bool) (codec : Codec) (c : Call) (s : ObjectStore)
    (h : s.m_buffer_batch.length ≤ 2000) :
    (c.run_with geometries codec s).m_buffer_batch.length ≤ 2000 := by
  cases c with
  | store_json_node node =>
    simp only [Call.run_with, store_json_node_with]
    cases hb : json_node_base geometries codec node with
    | none => exact h
    | some base =>
      have hle := length_store_json_object codec (json_node_geometry geometries node base)
        (make_lookup node.id node.version) CF.nodes s
      simp only [store_json_object] at hle ⊢
      split_ifs at hle ⊢ <;>
        simp_all [write_batch, flush_family, report_count_stats] <;> omega
  | store_pbf_node node =>
    have hle := length_store_pbf_object (codec.encode_node node)
      (make_lookup node.id node.version) CF.nodes s
    simp only [Call.run_with, store_pbf_node, store_pbf_object] at hle ⊢
    split_ifs at hle ⊢ <;>
      simp_all [write_batch, flush_family, report_count_stats]
  | store_pbf_way way =>
    have hle := length_store_pbf_object (codec.encode_way way)
      (make_lookup way.id way.version) CF.ways s
    simp only [Call.run_with, store_pbf_way, store_pbf_object] at hle ⊢
    split_ifs at hle ⊢ <;>
      simp_all [write_batch, flush_family, report_count_stats]
  | store_json_way way =>
    have hle := length_store_json_object codec (json_way_document geometries codec way)
      (make_lookup way.id way.version) CF.ways s
    simp only [Call.run_with, store_json_way_with, store_json_object] at hle ⊢
    split_ifs at hle ⊢ <;>
      simp_all [write_batch, flush_family, report_count_stats] <;> omega
  | store_json_relation relation =>
    have hle := length_store_json_object codec
      (codec.extract_osm_properties_relation relation)
      (make_lookup relation.id relation.version) CF.relations s
    simp only [Call.run_with, store_json_relation, store_json_object] at hle ⊢
    split_ifs at hle ⊢ <;>
      simp_all [write_batch, flush_family, report_count_stats] <;> omega

theorem run_ops_with_cons (geometries : Bool) (codec : Codec) (o : Op) (ops : List Op)
    (s : ObjectStore) :
    run_ops_with geometries codec (o :: ops) s
      = run_ops_with geometries codec ops (o.run_with geometries codec s) := rfl

theorem length_run_ops_with (geometries : Bool) (codec : Codec) (ops : List Op) :
    ∀ s : ObjectStore, s.m_buffer_batch.length ≤ 2000 →
      (run_ops_with geometries codec ops s).m_buffer_batch.length ≤ 2000 := by
  induction ops with
  | nil => intro s h; exact h
  | cons o ops ih =>
    intro s h
    rw [run_ops_with_cons]
    apply ih
    cases o with
    | call c => exact length_run_with geometries codec c s h
    | flush =>
      simp only [Op.run_with, m_buffer_batch_flush]
      exact Nat.zero_le _

/-- C18: in every state reached from a freshly constructed store by any interleaving of
`store_*` calls and `flush()` the pending batch holds at most 2000 puts; and right after
any `store_json_object` call it holds at most 1000, whatever was pending before the
call, as it holds at most 2000 right after any `store_pbf_object` call. -/
theorem pending_batch_bounded (geometries : Bool) (codec : Codec) :
    (∀ (existing : DB) (create : Bool) (ops : List Op),
      (run_ops_with geometries codec ops
        (ObjectStore.construct existing create)).m_buffer_batch.length ≤ 2000) ∧
    (∀ (s : ObjectStore) (doc : Document) (lookup : String) (cf : CF),
      (store_json_object codec doc lookup cf s).2.m_buffer_batch.length ≤ 1000) ∧
    (∀ (s : ObjectStore) (value lookup : String) (cf : CF),
      (store_pbf_object value lookup cf s).2.m_buffer_batch.length ≤ 2000) ∧
    ∀ (s : ObjectStore) (node : Node) (way : Way) (relation : Relation),
      (store_json_node codec node s).m_buffer_batch.length ≤ 1000 ∧
      (store_json_way codec way s).m_buffer_batch.length ≤ 1000 ∧
      (store_json_relation codec relation s).m_buffer_batch.length ≤ 1000 := by
  refine ⟨?_, ?_, ?_, ?_⟩
  · intro existing create ops
    exact length_run_ops_with geometries codec ops _ (Nat.zero_le _)
  · intro s doc lookup cf
    exact length_store_json_object codec doc lookup cf s
  · intro s value lookup cf
    exact length_store_pbf_object value lookup cf s
  · intro s node way relation
    refine ⟨?_, ?_, ?_⟩
    · have hle := length_store_json_object codec
        (json_node_geometry STORE_GEOMETRIES node
          (if node.tags.isEmpty = true ∧ node.version = 1
            then codec.extract_primary_properties node
            else codec.extract_osm_properties_node node))
        (make_lookup node.id node.version) CF.nodes s
      simp only [store_json_node, store_json_node_with, json_node_base_built,
        store_json_object] at hle ⊢
      split_ifs at hle ⊢ <;>
        simp_all [write_batch, flush_family, report_count_stats]
    · have hle := length_store_json_object codec
        (json_way_document STORE_GEOMETRIES codec way)
        (make_lookup way.id way.version) CF.ways s
      simp only [store_json_way, store_json_way_with, store_json_object] at hle ⊢
      split_ifs at hle ⊢ <;>
        simp_all [write_batch, flush_family, report_count_stats]
    · have hle := length_store_json_object codec
        (codec.extract_osm_properties_relation relation)
        (make_lookup relation.id relation.version) CF.relations s
      simp only [store_json_relation, store_json_object] at hle ⊢
      split_ifs at hle ⊢ <;>
        simp_all [write_batch, flush_family, report_count_stats]

/-- A store whose batch holds 2000 compact puts: one `store_json_object` call empties
it. -/
theorem pending_batch_bounded_witness :
    (store_pbf_objects (List.replicate 2000 ⟨CF.nodes, "7!1", "node 7!1"⟩)
        fresh_store).m_buffer_batch.length = 2000 ∧
      (store_json_object sample_codec [] "7!1" CF.nodes
        (store_pbf_objects (List.replicate 2000 ⟨CF.nodes, "7!1", "node 7!1"⟩)
          fresh_store)).2.m_buffer_batch.length ≤ 1000 :=
  ⟨by
      rw [store_pbf_objects_pending _ fresh_store
        (by rw [List.length_replicate]; exact Nat.le_refl _)]
      exact List.length_replicate _ _,
    (pending_batch_bounded true sample_codec).2.1 _ [] "7!1" CF.nodes⟩

/-! ## Nothing is skipped in the program as built -/

theorem empty_objects_count_run_ops (codec : Codec) (ops : List Op) :
    ∀ s : ObjectStore, (run_ops codec ops s).empty_objects_count = s.empty_objects_count := by
  induction ops with
  | nil => intro s; rfl
  | cons o ops ih =>
    intro s
    have hfold : run_ops codec (o :: ops) s
        = run_ops codec ops (o.run_with STORE_GEOMETRIES codec s) := rfl
    rw [hfold, ih]
    cases o with
    | call c =>
      have h := (counters_run_with STORE_GEOMETRIES codec c s).2.2.2.1
      have hskip : c.skipped_with STORE_GEOMETRIES = false := by
        cases c <;> simp [Call.skipped_with, STORE_GEOMETRIES]
      simp only [Op.run_with, h, hskip]
      simp
    | flush =>
      simp [Op.run_with, flush, write_batch, flush_family, compact_family,
        report_count_stats]

/-- C20: with `STORE_GEOMETRIES` fixed to true, `empty_objects_count` is 0 in every state
reached from a freshly constructed store by store calls and flushes, and every
`store_json_node` call, the node having tags or not, appends exactly one put to the
batch, which the same call hands to the engine when it passes 1000, and adds 1 to
`stored_nodes_count`. -/
theorem no_entity_skipped (codec : Codec) :
    STORE_GEOMETRIES = true ∧
    (∀ (existing : DB) (create : Bool) (ops : List Op),
      (run_ops codec ops (ObjectStore.construct existing create)).empty_objects_count = 0) ∧
    ∀ (s : ObjectStore) (node : Node),
      ∃ base : Document, json_node_base STORE_GEOMETRIES codec node = some base ∧
        (store_json_node codec node s).puts
          = s.puts ++ [⟨CF.nodes, make_lookup node.id node.version,
              codec.serialize (json_node_geometry STORE_GEOMETRIES node base)⟩] ∧
        (store_json_node codec node s).m_buffer_batch
          = (if 1000 < s.m_buffer_batch.length + 1 then []
            else s.m_buffer_batch ++ [⟨CF.nodes, make_lookup node.id node.version,
              codec.serialize (json_node_geometry STORE_GEOMETRIES node base)⟩]) ∧
        (1000 < s.m_buffer_batch.length + 1 →
          Event.write (s.m_buffer_batch ++ [⟨CF.nodes, make_lookup node.id node.version,
              codec.serialize (json_node_geometry STORE_GEOMETRIES node base)⟩])
            ∈ (store_json_node codec node s).trace) ∧
        (store_json_node codec node s).stored_nodes_count = s.stored_nodes_count + 1 ∧
        (store_json_node codec node s).empty_objects_count = s.empty_objects_count := by
  refine ⟨rfl, ?_, ?_⟩
  · intro existing create ops
    rw [empty_objects_count_run_ops]
    rfl
  · intro s node
    refine ⟨_, json_node_base_built codec node,
      puts_store_json_node_with STORE_GEOMETRIES codec node s _
        (json_node_base_built codec node), ?_, ?_, ?_, ?_⟩
    · simp only [store_json_node, store_json_node_with, json_node_base_built,
        store_json_object]
      split_ifs <;> simp_all [write_batch, flush_family, report_count_stats]
    · intro hfull
      simp only [store_json_node, store_json_node_with, json_node_base_built,
        store_json_object]
      split_ifs <;> simp_all [write_batch, flush_family, report_count_stats]
    · exact counter_run codec (Call.store_json_node node) s
    · have h := (counters_run_with STORE_GEOMETRIES codec (Call.store_json_node node)
        s).2.2.2.1
      simp only [Call.run_with, Call.skipped_with, STORE_GEOMETRIES] at h
      rw [store_json_node, STORE_GEOMETRIES, h]
      simp

/-- The point without tags is queued and counted by `store_json_node`, and counted as
empty by no call. -/
theorem no_entity_skipped_witness :
    sample_node.tags = [] ∧
      (store_json_node sample_codec sample_node fresh_store).m_buffer_batch.length = 1 ∧
      (store_json_node sample_codec sample_node fresh_store).stored_nodes_count = 1 ∧
      (run_ops sample_codec [Op.call (Call.store_json_node sample_node), Op.flush]
        fresh_store).empty_objects_count = 0 :=
  ⟨rfl, by decide, by decide,
    (no_entity_skipped sample_codec).2.1
      { read_only := false, nodes := [], ways := [], relations := [] } true _⟩

/-! ## The number of keys of a partition -/

theorem KV.keys_put (key value : String) (m : KV) :
    KV.keys (KV.put key value m) = key :: (KV.keys m).filter (fun x => x != key) := by
  simp only [KV.keys, KV.put, List.map_cons, List.cons.injEq, true_and]
  induction m with
  | nil => rfl
  | cons p m ih =>
    by_cases hp : p.1 = key <;> simp [List.filter_cons, hp, ih]

theorem KV.nodup_keys_put (key value : String) (m : KV) (h : (KV.keys m).Nodup) :
    (KV.keys (KV.put key value m)).Nodup := by
  rw [KV.keys_put]
  refine List.nodup_cons.2 ⟨?_, h.filter _⟩
  simp [List.mem_filter]

theorem KV.mem_keys_put (key value x : String) (m : KV) :
    x ∈ KV.keys (KV.put key value m) ↔ x = key ∨ x ∈ KV.keys m := by
  rw [KV.keys_put]
  by_cases hx : x = key <;> simp [List.mem_filter, hx]

theorem DB.family_Put (db : DB) (op : BatchOp) (cf : CF) :
    (db.Put op).family cf
      = if op.cf = cf then (db.family cf).put op.key op.value else db.family cf := by
  obtain ⟨ocf, okey, oval⟩ := op
  cases ocf <;> cases cf <;> simp [DB.Put, DB.family, DB.setFamily]

/-- The put of a call of the program as built. -/
theorem put_with_built (codec : Codec) (c : Call) :
    ∃ bytes, c.put_with STORE_GEOMETRIES codec
      = some ⟨c.cf, make_lookup c.id c.version, bytes⟩ := by
  obtain ⟨bytes, hb⟩ := bytes_isSome codec c
  refine ⟨bytes, ?_⟩
  simp only [Call.bytes] at hb
  simp [Call.put_with, hb]

/-- The keys a column family will hold once the batch is written: each once, and those
of the calls made for that column family besides the ones it held. -/
theorem keys_view_run_calls (codec : Codec) (cf : CF) (calls : List Call)
    (hcf : ∀ c ∈ calls, c.cf = cf) : ∀ (s : ObjectStore) (held : List String),
    s.m_db.read_only = false →
    (KV.keys (s.view.family cf)).Nodup →
    (∀ x, x ∈ KV.keys (s.view.family cf) ↔ x ∈ held) →
    (KV.keys ((run_calls codec calls s).view.family cf)).Nodup ∧
      ∀ x, x ∈ KV.keys ((run_calls codec calls s).view.family cf)
        ↔ x ∈ held ++ calls.map (fun c => make_lookup c.id c.version) := by
  induction calls with
  | nil =>
    intro s held _ hnd hmem
    exact ⟨hnd, fun x => by simpa using hmem x⟩
  | cons c calls ih =>
    intro s held hw hnd hmem
    have hc : c.cf = cf := hcf c (List.mem_cons_self _ _)
    obtain ⟨bytes, hput⟩ := put_with_built codec c
    have hview : (c.run codec s).view.family cf
        = (s.view.family cf).put (make_lookup c.id c.version) bytes := by
      rw [Call.run, view_run_with STORE_GEOMETRIES codec c s hw, hput]
      simp [DB.family_Put, hc]
    have hw2 : (c.run codec s).m_db.read_only = false := by
      rw [Call.run, read_only_run_with, hw]
    have hstep := ih (fun d hd => hcf d (List.mem_cons_of_mem _ hd)) (c.run codec s)
      (held ++ [make_lookup c.id c.version]) hw2
      (by rw [hview]; exact KV.nodup_keys_put _ _ _ hnd)
      (by
        intro x
        rw [hview, KV.mem_keys_put, hmem x]
        simp [or_comm])
    have hfold : run_calls codec (c :: calls) s = run_calls codec calls (c.run codec s) := rfl
    rw [hfold]
    refine ⟨hstep.1, fun x => ?_⟩
    rw [hstep.2 x]
    simp [List.append_assoc]

/-- A duplicate-free list with the members of another list has the length of that list
without its repetitions. -/
theorem length_eq_dedup_length {α : Type} [DecidableEq α] (l L : List α) (hnd : l.Nodup)
    (hmem : ∀ x, x ∈ l ↔ x ∈ L) : l.length = L.dedup.length := by
  have hperm : l.Perm L.dedup :=
    (List.perm_ext_iff_of_nodup hnd (List.nodup_dedup L)).2
      (fun x => by rw [hmem x, List.mem_dedup])
  exact hperm.length_eq

theorem key_of_pair_injective :
    Function.Injective (fun p : Int × Int => make_lookup p.1 p.2) := by
  intro p q h
  obtain ⟨h1, h2⟩ := make_lookup_inj h
  exact Prod.ext h1 h2

theorem stored_nodes_count_flush (s : ObjectStore) :
    (flush s).stored_nodes_count = s.stored_nodes_count := by
  simp [flush, write_batch, flush_family, compact_family, report_count_stats]

/-- C19: for every finite sequence of node store calls on a store just created in write
mode, followed by `flush()`: the nodes partition holds each key once, the number of its
keys is the number of distinct `(id, version)` pairs stored, which is at most
`stored_nodes_count`, the number of calls, with equality exactly when no pair was
stored twice; and `get_tags` answers with the bytes of the last call made for a pair, so
a repeated pair replaces the earlier bytes while it is counted again. -/
theorem keys_count_distinct_pairs (codec : Codec) (existing : DB) (calls : List Call)
    (hnodes : ∀ c ∈ calls, c.isNode = true) :
    (KV.keys (flush (run_calls codec calls
        (ObjectStore.construct existing true))).m_db.nodes).Nodup ∧
    (KV.keys (flush (run_calls codec calls
        (ObjectStore.construct existing true))).m_db.nodes).length
      = (calls.map Call.pair).dedup.length ∧
    (flush (run_calls codec calls
        (ObjectStore.construct existing true))).stored_nodes_count = calls.length ∧
    (KV.keys (flush (run_calls codec calls
        (ObjectStore.construct existing true))).m_db.nodes).length
      ≤ (flush (run_calls codec calls
          (ObjectStore.construct existing true))).stored_nodes_count ∧
    ((KV.keys (flush (run_calls codec calls
        (ObjectStore.construct existing true))).m_db.nodes).length
      = (flush (run_calls codec calls
          (ObjectStore.construct existing true))).stored_nodes_count
      ↔ (calls.map Call.pair).Nodup) ∧
    ∀ id version : Int,
      get_tags id 1 version
          (flush (run_calls codec calls (ObjectStore.construct existing true)))
        = last_bytes codec calls 1 id version := by
  have hw : (ObjectStore.construct existing true).m_db.read_only = false := rfl
  have hw2 : (run_calls codec calls (ObjectStore.construct existing true)).m_db.read_only
      = false := by
    rw [run_calls, read_only_run_calls_with, hw]
  have hcf : ∀ c ∈ calls, c.cf = CF.nodes := by
    intro c hc
    have h := hnodes c hc
    cases c <;> simp_all [Call.isNode, Call.cf]
  obtain ⟨hnd, hmem⟩ := keys_view_run_calls codec CF.nodes calls hcf
    (ObjectStore.construct existing true) [] hw List.nodup_nil (fun x => Iff.rfl)
  have hdb : (flush (run_calls codec calls (ObjectStore.construct existing true))).m_db.nodes
      = (run_calls codec calls (ObjectStore.construct existing true)).view.family CF.nodes := by
    rw [m_db_flush _ hw2]; rfl
  have hkeys : calls.map (fun c => make_lookup c.id c.version)
      = (calls.map Call.pair).map (fun p : Int × Int => make_lookup p.1 p.2) := by
    simp [Call.pair]
  have hlen : (KV.keys (flush (run_calls codec calls
      (ObjectStore.construct existing true))).m_db.nodes).length
      = (calls.map Call.pair).dedup.length := by
    have hmem2 : ∀ x, x ∈ KV.keys ((run_calls codec calls
        (ObjectStore.construct existing true)).view.family CF.nodes)
        ↔ x ∈ calls.map (fun c => make_lookup c.id c.version) := by
      intro x
      rw [hmem x, List.nil_append]
    rw [hdb, length_eq_dedup_length _ _ hnd hmem2, hkeys,
      List.dedup_map_of_injective key_of_pair_injective, List.length_map]
  have hcount : (flush (run_calls codec calls
      (ObjectStore.construct existing true))).stored_nodes_count = calls.length := by
    rw [stored_nodes_count_flush, run_calls,
      (counters_run_calls_with STORE_GEOMETRIES codec calls
        (fun c _ => by cases c <;> simp [Call.skipped_with, STORE_GEOMETRIES])
        (ObjectStore.construct existing true)).1]
    have hall : calls.countP Call.isNode = calls.length :=
      List.countP_eq_length.2 hnodes
    rw [hall]
    exact Nat.zero_add _
  have hsub : (calls.map Call.pair).dedup.length ≤ (calls.map Call.pair).length :=
    (List.dedup_sublist _).length_le
  rw [List.length_map] at hsub
  refine ⟨by rw [hdb]; exact hnd, hlen, hcount, by rw [hlen, hcount]; exact hsub, ?_, ?_⟩
  · rw [hlen, hcount]
    constructor
    · intro h
      have heq := (List.dedup_sublist (calls.map Call.pair)).eq_of_length
        (by rw [h, List.length_map])
      exact List.dedup_eq_self.1 heq
    · intro h
      rw [List.dedup_eq_self.2 h, List.length_map]
  · intro id version
    exact get_tags_flush_run_calls_with STORE_GEOMETRIES codec existing calls 1 id version
      (Or.inl rfl)

/-- The same point stored twice and another one once: three calls counted, two keys in
the nodes partition. -/
theorem keys_count_distinct_pairs_witness :
    (∀ c ∈ [Call.store_pbf_node sample_node, Call.store_json_node sample_node,
        Call.store_pbf_node tagged_node], c.isNode = true) ∧
      (KV.keys (flush (run_calls sample_codec
        [Call.store_pbf_node sample_node, Call.store_json_node sample_node,
          Call.store_pbf_node tagged_node] fresh_store)).m_db.nodes).length = 2 ∧
      (flush (run_calls sample_codec
        [Call.store_pbf_node sample_node, Call.store_json_node sample_node,
          Call.store_pbf_node tagged_node] fresh_store)).stored_nodes_count = 3 :=
  ⟨by decide,
    ((keys_count_distinct_pairs sample_codec
      { read_only := false, nodes := [], ways := [], relations := [] } _
      (by decide)).2.1).trans (by decide),
    (keys_count_distinct_pairs sample_codec
      { read_only := false, nodes := [], ways := [], relations := [] }
      [Call.store_pbf_node sample_node, Call.store_json_node sample_node,
        Call.store_pbf_node tagged_node] (by decide)).2.2.1⟩

end OsmWayback
